import Mathlib

/-
Verification development for the Search-CTECs frontend core
(search-and-aggregation subsystem).

Modeling conventions:
* JavaScript numbers are modeled as exact rationals (ℚ).  All values that
  the verified claims touch (rating labels "1".."6", response counts,
  page sizes, offsets) are small integers or short decimal fractions, on
  which IEEE double arithmetic is exact, so the idealization is faithful
  for the properties proved here.
* Response counts are modeled as integers (ℤ); the data-model invariant
  of the system is that they are non-negative response tallies.
* JavaScript objects used as ordered string-keyed maps (rating
  distributions, bucket tallies) are modeled as association lists
  `List (String × ℤ)` in insertion order, matching the JS iteration
  order of `Object.entries` for string keys.
* `parseFloat` is modeled over the finite decimal-literal grammar
  (optional whitespace, optional sign, digits with optional fraction and
  exponent, longest valid prefix; no valid prefix ⇒ NaN, modeled as
  `none`).  The `Infinity` production of the JS grammar is outside the
  label language of this system and is not modeled.  Parsing is split
  into a digit-level stage (`parseFloatRepr`, producing the parts of the
  recognized literal) and the numeric value of the literal
  (`decLitVal`); their composition is JS `parseFloat`.
-/

namespace CTEC

/-- ASCII whitespace skipped by `parseFloat` before the literal. -/
def isWs (c : Char) : Bool :=
  c == ' ' || c == '\t' || c == '\n' || c == '\r'

/-- Value of a digit string, most significant first. -/
def digitsVal (ds : List Char) : Nat :=
  ds.foldl (fun n c => 10 * n + (c.toNat - '0'.toNat)) 0

/-- Longest leading run of decimal digits. -/
def spanDigits : List Char → List Char × List Char
  | [] => ([], [])
  | c :: cs =>
    if c.isDigit then
      let p := spanDigits cs
      (c :: p.1, p.2)
    else ([], c :: cs)

/-- Optional sign character; `true` means negative. -/
def parseSign : List Char → Bool × List Char
  | '-' :: cs => (true, cs)
  | '+' :: cs => (false, cs)
  | cs => (false, cs)

/-- The parts of a recognized decimal literal: sign, integer-part value,
fraction-part value, number of fraction digits, exponent. -/
structure DecLit where
  neg : Bool
  ip : Nat
  fp : Nat
  fl : Nat
  ex : Int
deriving DecidableEq, Repr

/-- Numeric value of a recognized decimal literal. -/
def decLitVal (r : DecLit) : ℚ :=
  let m : ℚ := (r.ip : ℚ) + (r.fp : ℚ) / (10 : ℚ) ^ r.fl
  let v : ℚ := m * (10 : ℚ) ^ r.ex
  if r.neg then -v else v

/-- Digit-level stage of JS `parseFloat`: longest valid decimal-literal
prefix after optional leading whitespace; `none` when no valid prefix
exists (JS `NaN`). -/
def parseFloatRepr (s : String) : Option DecLit :=
  let cs := s.data.dropWhile isWs
  let sg := parseSign cs
  let ipp := spanDigits sg.2
  let fpp : List Char × List Char :=
    match ipp.2 with
    | '.' :: r => spanDigits r
    | _ => ([], ipp.2)
  if ipp.1.isEmpty && fpp.1.isEmpty then none
  else
    let ex : ℤ :=
      match fpp.2 with
      | e :: r =>
        if e == 'e' || e == 'E' then
          let esg := parseSign r
          let ed := spanDigits esg.2
          if ed.1.isEmpty then 0
          else if esg.1 then -(digitsVal ed.1 : ℤ) else (digitsVal ed.1 : ℤ)
        else 0
      | [] => 0
    some ⟨sg.1, digitsVal ipp.1, digitsVal fpp.1, fpp.1.length, ex⟩

/-- Model of JS `parseFloat`; `none` models `NaN`. -/
def parseFloat (s : String) : Option ℚ :=
  (parseFloatRepr s).map decLitVal

/-- Labels whose first non-whitespace character is not a minus sign parse
to non-negative values (all labels of the system's distributions are such). -/
def nonNegLabel (s : String) : Bool :=
  match s.data.dropWhile isWs with
  | '-' :: _ => false
  | _ => true

theorem parseSign_not_neg (cs : List Char) (h : cs.head? ≠ some '-') :
    (parseSign cs).1 = false := by
  match cs with
  | [] => rfl
  | c :: rest =>
    simp only [List.head?] at h
    match c, h with
    | '-', h => exact absurd rfl h
    | c, _ =>
      simp only [parseSign]
      split <;> simp_all

theorem decLitVal_nonneg (r : DecLit) (h : r.neg = false) : 0 ≤ decLitVal r := by
  unfold decLitVal
  rw [h]
  simp only [Bool.false_eq_true, if_false]
  have hm : (0:ℚ) ≤ (r.ip : ℚ) + (r.fp : ℚ) / (10 : ℚ) ^ r.fl := by
    positivity
  have hp : (0:ℚ) < (10 : ℚ) ^ r.ex := by positivity
  nlinarith

/-- A label that does not start (after whitespace) with a minus sign never
parses to a negative value. -/
theorem parseFloat_nonneg (s : String) (h : nonNegLabel s = true) :
    ∀ q ∈ parseFloat s, 0 ≤ q := by
  intro q hq
  unfold parseFloat at hq
  unfold parseFloatRepr at hq
  simp only [Option.mem_def, Option.map_eq_some'] at hq
  obtain ⟨r, hr, hval⟩ := hq
  unfold nonNegLabel at h
  have hsg : (parseSign (s.data.dropWhile isWs)).1 = false := by
    apply parseSign_not_neg
    intro hc
    revert h
    cases hd : s.data.dropWhile isWs with
    | nil => rw [hd] at hc; simp at hc
    | cons c rest =>
      rw [hd] at hc
      simp only [List.head?, Option.some.injEq] at hc
      subst hc
      simp
  split at hr
  · exact absurd hr (by simp)
  · rw [Option.some.injEq] at hr
    subst hr
    subst hval
    exact decLitVal_nonneg _ hsg

/-- A rating distribution: JS object mapping label → response count, in
insertion order (`src/frontend/src/utils/ratingCalculations.js`). -/
abbrev Distribution := List (String × ℤ)

/-- One step of the `forEach` accumulation in `calculateAverageRating`:
include the entry when the label parses (`!isNaN`) and `count > 0`. -/
def avgStep (acc : ℚ × ℤ) (e : String × ℤ) : ℚ × ℤ :=
  match parseFloat e.1 with
  | some r => if e.2 > 0 then (acc.1 + r * (e.2 : ℚ), acc.2 + e.2) else acc
  | none => acc

/-- `calculateAverageRating` from `ratingCalculations.js` (the
`weightedAverage` of the spec): weighted sum over numerically-labeled
entries divided by the total included count, `0` when that total is `0`.
The JS guard for a non-object argument is outside the typed model. -/
def calculateAverageRating (d : Distribution) : ℚ :=
  let acc := d.foldl avgStep (0, 0)
  if acc.2 > 0 then acc.1 / (acc.2 : ℚ) else 0

/-- One step of the `forEach` in `calculateMode`: strict improvement only,
so the first entry attaining the maximum count wins. -/
def modeStep (acc : String × ℤ) (e : String × ℤ) : String × ℤ :=
  if e.2 > acc.2 then (e.1, e.2) else acc

/-- `calculateMode` from `ratingCalculations.js` (the `mode` of the spec):
label with the highest count, first-encountered on ties, `""` when no
entry has a positive count.  (`parseInt(count)` is the identity on the
integral counts of the model.)  The JS guard for a non-object argument is
outside the typed model. -/
def calculateMode (d : Distribution) : String :=
  (d.foldl modeStep ("", 0)).1

example : parseFloatRepr "3 or fewer" = some ⟨false, 3, 0, 0, 0⟩ := by decide
example : parseFloatRepr "4 - 7" = some ⟨false, 4, 0, 0, 0⟩ := by decide
example : parseFloatRepr "abc" = none := by decide
example : parseFloatRepr "-2.5e1" = some ⟨true, 2, 5, 1, 1⟩ := by decide
example : calculateMode [("3 or fewer", 2), ("4 - 7", 5), ("8 - 11", 1)] = "4 - 7" := by decide

theorem parseFloat_one : parseFloat "1" = some 1 := by
  rw [parseFloat, show parseFloatRepr "1" = some ⟨false, 1, 0, 0, 0⟩ from rfl]
  simp [decLitVal]

theorem parseFloat_five : parseFloat "5" = some 5 := by
  rw [parseFloat, show parseFloatRepr "5" = some ⟨false, 5, 0, 0, 0⟩ from rfl]
  simp [decLitVal]

theorem parseFloat_three_or_fewer : parseFloat "3 or fewer" = some 3 := by
  rw [parseFloat, show parseFloatRepr "3 or fewer" = some ⟨false, 3, 0, 0, 0⟩ from rfl]
  simp [decLitVal]

example : calculateAverageRating [("1", 1), ("5", 1)] = 3 := by
  simp [calculateAverageRating, avgStep, parseFloat_one, parseFloat_five]
  norm_num

/-- Claim-side view of a distribution: the entries whose label parses as a
number, as (parsed value, count) pairs. -/
def numericEntries (d : Distribution) : List (ℚ × ℤ) :=
  d.filterMap (fun p => (parseFloat p.1).map (fun q => (q, p.2)))

/-- Claim-side accumulated `label_value * count` over the numeric entries. -/
def numericWeightedSum (d : Distribution) : ℚ :=
  ((numericEntries d).map (fun e => e.1 * (e.2 : ℚ))).sum

/-- Claim-side accumulated `count` over the numeric entries. -/
def numericTotalCount (d : Distribution) : ℤ :=
  ((numericEntries d).map (fun e => e.2)).sum

theorem numericEntries_cons (p : String × ℤ) (rest : Distribution) :
    numericEntries (p :: rest) =
      match parseFloat p.1 with
      | some q => (q, p.2) :: numericEntries rest
      | none => numericEntries rest := by
  unfold numericEntries
  cases h : parseFloat p.1 <;> simp [List.filterMap_cons, h]

theorem numericWeightedSum_cons (p : String × ℤ) (rest : Distribution) :
    numericWeightedSum (p :: rest) =
      match parseFloat p.1 with
      | some q => q * (p.2 : ℚ) + numericWeightedSum rest
      | none => numericWeightedSum rest := by
  rw [numericWeightedSum, numericEntries_cons]
  cases parseFloat p.1 <;> simp [numericWeightedSum]

theorem numericTotalCount_cons (p : String × ℤ) (rest : Distribution) :
    numericTotalCount (p :: rest) =
      match parseFloat p.1 with
      | some _ => p.2 + numericTotalCount rest
      | none => numericTotalCount rest := by
  rw [numericTotalCount, numericEntries_cons]
  cases parseFloat p.1 <;> simp [numericTotalCount]

theorem foldl_avgStep (d : Distribution) (h : ∀ p ∈ d, 0 ≤ p.2) (a : ℚ × ℤ) :
    d.foldl avgStep a = (a.1 + numericWeightedSum d, a.2 + numericTotalCount d) := by
  induction d generalizing a with
  | nil => simp [numericWeightedSum, numericTotalCount, numericEntries]
  | cons p rest ih =>
    have hp : 0 ≤ p.2 := h p (by simp)
    have hr : ∀ q ∈ rest, 0 ≤ q.2 := fun q hq => h q (by simp [hq])
    simp only [List.foldl_cons]
    rw [ih hr, numericWeightedSum_cons, numericTotalCount_cons]
    unfold avgStep
    cases hpf : parseFloat p.1 with
    | none => rfl
    | some q =>
      by_cases hc : p.2 > 0
      · simp only [hc, if_true]
        refine Prod.ext ?_ ?_ <;> simp <;> ring
      · have hz : p.2 = 0 := le_antisymm (not_lt.mp hc) hp
        simp only [hc, if_false, hz]
        refine Prod.ext ?_ ?_ <;> simp [hz]

/-- C5: for every distribution (with the data-model invariant of
non-negative counts), `calculateAverageRating` returns the weighted sum of
`label_value * count` over exactly the entries whose label parses as a
number, divided by the accumulated count, and `0` when that accumulated
count is `0`; non-numeric labels are ignored (the function is total).  In
particular the distribution "1"↦1, "5"↦1 averages to 3 and the
distribution "1"↦3, "5"↦1 averages to 2. -/
theorem weightedAverage_spec :
    (∀ d : Distribution, (∀ p ∈ d, 0 ≤ p.2) →
      calculateAverageRating d =
        if 0 < numericTotalCount d then
          numericWeightedSum d / (numericTotalCount d : ℚ)
        else 0)
    ∧ calculateAverageRating [("1", 1), ("5", 1)] = 3
    ∧ calculateAverageRating [("1", 3), ("5", 1)] = 2 := by
  refine ⟨fun d h => ?_, ?_, ?_⟩
  · rw [calculateAverageRating, foldl_avgStep d h (0, 0)]
    simp only [zero_add]
  · simp [calculateAverageRating, avgStep, parseFloat_one, parseFloat_five]
    norm_num
  · simp [calculateAverageRating, avgStep, parseFloat_one, parseFloat_five]
    norm_num

/-- Witness for `weightedAverage_spec`: the universal part applied at a
concrete distribution containing a malformed label. -/
theorem weightedAverage_spec_witness :
    calculateAverageRating [("1", 2), ("junk", 7), ("5", 2)] =
      if 0 < numericTotalCount [("1", 2), ("junk", 7), ("5", 2)] then
        numericWeightedSum [("1", 2), ("junk", 7), ("5", 2)] /
          (numericTotalCount [("1", 2), ("junk", 7), ("5", 2)] : ℚ)
      else 0 :=
  weightedAverage_spec.1 [("1", 2), ("junk", 7), ("5", 2)] (by decide)

/-- The maximum count of a distribution, starting (as the code does) from 0. -/
def maxCountD (d : Distribution) : ℤ :=
  d.foldl (fun m p => max m p.2) 0

/-- Claim-side mode: the first-encountered label attaining the maximum
count (stable tie-break), `""` when no entry attains it. -/
def modeSpec (d : Distribution) : String :=
  match d.find? (fun p => decide (maxCountD d ≤ p.2)) with
  | some p => p.1
  | none => ""

theorem foldl_max_init_le (d : Distribution) (a : ℤ) :
    a ≤ d.foldl (fun m p => max m p.2) a := by
  induction d generalizing a with
  | nil => simp
  | cons p rest ih => exact le_trans (le_max_left a p.2) (ih (max a p.2))

theorem le_foldl_max (d : Distribution) (a : ℤ) (p : String × ℤ) (hp : p ∈ d) :
    p.2 ≤ d.foldl (fun m q => max m q.2) a := by
  induction d generalizing a with
  | nil => cases hp
  | cons q rest ih =>
    simp only [List.foldl_cons]
    rcases List.mem_cons.mp hp with h | h
    · subst h
      exact le_trans (le_max_right a p.2) (foldl_max_init_le rest _)
    · exact ih (max a q.2) h

theorem foldl_max_all_le (d : Distribution) (a : ℤ) (h : ∀ p ∈ d, p.2 ≤ a) :
    d.foldl (fun m p => max m p.2) a = a := by
  induction d with
  | nil => rfl
  | cons p rest ih =>
    have h1 : p.2 ≤ a := h p (by simp)
    have h2 : ∀ q ∈ rest, q.2 ≤ a := fun q hq => h q (by simp [hq])
    simp only [List.foldl_cons, max_eq_left h1]
    exact ih h2

theorem foldl_modeStep_all_le (d : Distribution) (a : String × ℤ)
    (h : ∀ p ∈ d, p.2 ≤ a.2) : d.foldl modeStep a = a := by
  induction d with
  | nil => rfl
  | cons p rest ih =>
    have h1 : p.2 ≤ a.2 := h p (by simp)
    have h2 : ∀ q ∈ rest, q.2 ≤ a.2 := fun q hq => h q (by simp [hq])
    have : modeStep a p = a := by
      unfold modeStep
      rw [if_neg (by omega)]
    simp only [List.foldl_cons, this]
    exact ih h2

theorem foldl_modeStep_find (d : Distribution) (a : String × ℤ)
    (h : ∃ p ∈ d, a.2 < p.2) :
    ∃ e, d.find? (fun p => decide (d.foldl (fun m q => max m q.2) a.2 ≤ p.2)) = some e ∧
      d.foldl modeStep a = e := by
  induction d generalizing a with
  | nil =>
    obtain ⟨p, hp, _⟩ := h
    cases hp
  | cons p rest ih =>
    simp only [List.foldl_cons, List.find?_cons]
    by_cases hp : a.2 < p.2
    · have hMa : max a.2 p.2 = p.2 := max_eq_right hp.le
      have hstep : modeStep a p = (p.1, p.2) := by
        unfold modeStep
        rw [if_pos (by omega)]
      simp only [hMa, hstep]
      by_cases hrest : ∃ r ∈ rest, p.2 < r.2
      · obtain ⟨e, hfind, hfold⟩ := ih (p.1, p.2) hrest
        refine ⟨e, ?_, hfold⟩
        have hM : p.2 < rest.foldl (fun m q => max m q.2) p.2 := by
          obtain ⟨r, hr, hlt⟩ := hrest
          have := le_foldl_max rest p.2 r hr
          omega
        simp only [decide_eq_false (by omega :
          ¬ rest.foldl (fun m q => max m q.2) p.2 ≤ p.2)]
        exact hfind
      · push_neg at hrest
        refine ⟨(p.1, p.2), ?_, ?_⟩
        · have hM : rest.foldl (fun m q => max m q.2) p.2 = p.2 :=
            foldl_max_all_le rest p.2 hrest
          simp only [hM, decide_eq_true (le_refl p.2)]
        · exact foldl_modeStep_all_le rest (p.1, p.2) hrest
    · have hMa : max a.2 p.2 = a.2 := max_eq_left (not_lt.mp hp)
      have hstep : modeStep a p = a := by
        unfold modeStep
        rw [if_neg (by omega)]
      simp only [hMa, hstep]
      have hrest : ∃ r ∈ rest, a.2 < r.2 := by
        obtain ⟨r, hr, hlt⟩ := h
        rcases List.mem_cons.mp hr with heq | hm
        · subst heq; omega
        · exact ⟨r, hm, hlt⟩
      obtain ⟨e, hfind, hfold⟩ := ih a hrest
      refine ⟨e, ?_, hfold⟩
      have hM : p.2 < rest.foldl (fun m q => max m q.2) a.2 := by
        obtain ⟨r, hr, hlt⟩ := hrest
        have := le_foldl_max rest a.2 r hr
        omega
      simp only [decide_eq_false (by omega :
        ¬ rest.foldl (fun m q => max m q.2) a.2 ≤ p.2)]
      exact hfind

/-- C6: for every distribution with non-negative counts, `calculateMode`
returns the first-encountered label attaining the maximum count (stable
tie-break, not alphabetical), and returns the empty-string sentinel when
the distribution is empty or all counts are 0 (it never throws: it is a
total function).  In particular the distribution "3 or fewer"↦2,
"4 - 7"↦5, "8 - 11"↦1 has mode "4 - 7". -/
theorem mode_spec_thm :
    (∀ d : Distribution, (∀ p ∈ d, 0 ≤ p.2) →
      calculateMode d = if maxCountD d ≤ 0 then "" else modeSpec d)
    ∧ calculateMode [("3 or fewer", 2), ("4 - 7", 5), ("8 - 11", 1)] = "4 - 7"
    ∧ calculateMode [] = ""
    ∧ calculateMode [("a", 0), ("b", 0)] = "" := by
  refine ⟨fun d h => ?_, by decide, rfl, by decide⟩
  by_cases hM : maxCountD d ≤ 0
  · rw [if_pos hM]
    have hle : ∀ p ∈ d, p.2 ≤ (("", 0) : String × ℤ).2 := by
      intro p hp
      have := le_foldl_max d 0 p hp
      unfold maxCountD at hM
      simpa using le_trans this hM
    rw [calculateMode, foldl_modeStep_all_le d _ hle]
  · rw [if_neg hM]
    have hex : ∃ p ∈ d, (("", 0) : String × ℤ).2 < p.2 := by
      by_contra hc
      push_neg at hc
      have hz : maxCountD d = 0 := by
        unfold maxCountD
        exact foldl_max_all_le d 0 (by simpa using hc)
      omega
    obtain ⟨e, hfind, hfold⟩ := foldl_modeStep_find d ("", 0) hex
    rw [calculateMode, hfold, modeSpec]
    have hpred : (fun p : String × ℤ => decide (maxCountD d ≤ p.2)) =
        (fun p : String × ℤ => decide (d.foldl (fun m q => max m q.2) (("", 0) : String × ℤ).2 ≤ p.2)) := rfl
    rw [hpred, hfind]

/-- Witness for `mode_spec_thm`: the universal part applied at a concrete
distribution with a tie, showing the stable (first-encountered) tie-break. -/
theorem mode_spec_thm_witness :
    calculateMode [("x", 4), ("y", 4), ("z", 1)] =
      if maxCountD [("x", 4), ("y", 4), ("z", 1)] ≤ 0 then ""
      else modeSpec [("x", 4), ("y", 4), ("z", 1)] :=
  mode_spec_thm.1 [("x", 4), ("y", 4), ("z", 1)] (by decide)

theorem parseFloat_four_dash_seven : parseFloat "4 - 7" = some 4 := by
  rw [parseFloat, show parseFloatRepr "4 - 7" = some ⟨false, 4, 0, 0, 0⟩ from rfl]
  simp [decLitVal]

theorem parseFloat_eight_dash_eleven : parseFloat "8 - 11" = some 8 := by
  rw [parseFloat, show parseFloatRepr "8 - 11" = some ⟨false, 8, 0, 0, 0⟩ from rfl]
  simp [decLitVal]

theorem parseFloat_twenty_or_more : parseFloat "20 or more" = some 20 := by
  rw [parseFloat, show parseFloatRepr "20 or more" = some ⟨false, 20, 0, 0, 0⟩ from rfl]
  simp [decLitVal]

/-- C10: `parseFloat` (and hence the numericness test of
`calculateAverageRating`) parses the leading numeric prefix of a label, not
the whole string: workload buckets such as "3 or fewer" and "4 - 7" are
included in the average with the prefix value, not excluded.  In
particular averaging the single-entry distribution "3 or fewer"↦2 yields 3
(not 0), and in general a singleton distribution whose label parses to `q`
with a positive count averages to `q`. -/
theorem parseFloat_prefix_behavior :
    parseFloat "3 or fewer" = some 3
    ∧ parseFloat "4 - 7" = some 4
    ∧ parseFloat "8 - 11" = some 8
    ∧ parseFloat "20 or more" = some 20
    ∧ calculateAverageRating [("3 or fewer", 2)] = 3
    ∧ (∀ (s : String) (q : ℚ) (c : ℤ), parseFloat s = some q → 0 < c →
        calculateAverageRating [(s, c)] = q) := by
  have hgen : ∀ (s : String) (q : ℚ) (c : ℤ), parseFloat s = some q → 0 < c →
      calculateAverageRating [(s, c)] = q := by
    intro s q c hs hc
    rw [calculateAverageRating]
    simp only [List.foldl_cons, List.foldl_nil]
    rw [avgStep]
    simp only [hs]
    rw [if_pos (show c > 0 from hc)]
    simp only [zero_add]
    show (if c > 0 then (q * (c : ℚ)) / (c : ℚ) else 0) = q
    rw [if_pos (show c > 0 from hc)]
    have hcz : (c : ℚ) ≠ 0 := Int.cast_ne_zero.mpr (by omega)
    field_simp
  refine ⟨parseFloat_three_or_fewer, parseFloat_four_dash_seven,
    parseFloat_eight_dash_eleven, parseFloat_twenty_or_more, ?_, hgen⟩
  exact hgen "3 or fewer" 3 2 parseFloat_three_or_fewer (by omega)

/-- Witness for `parseFloat_prefix_behavior`: the universal part applied
to the "4 - 7" workload bucket with count 5. -/
theorem parseFloat_prefix_behavior_witness :
    calculateAverageRating [("4 - 7", 5)] = 4 :=
  parseFloat_prefix_behavior.2.2.2.2.2 "4 - 7" 4 5 parseFloat_four_dash_seven (by omega)

/-- JS `Math.round`: round half toward positive infinity. -/
def jsRound (x : ℚ) : ℤ := ⌊x + 1 / 2⌋

/-- One-decimal rounding, as the source's `Math.round(x * 10) / 10`. -/
def round1 (x : ℚ) : ℚ := (jsRound (x * 10) : ℚ) / 10

/-- One survey response row: question key and its distribution
(`survey_responses` rows selected by `offerings.ts`). -/
structure SurveyResponse where
  survey_question : String
  distribution : Distribution
deriving DecidableEq

/-- The JS number/string union held by the `time_survey` field: `0` until
assigned, a modal bucket label afterwards. -/
inductive TimeVal
  | num (q : ℚ)
  | str (s : String)
deriving DecidableEq

/-- The record returned by `processSurveyResponses` and
`calculateProfessorAverages` in `ratingCalculations.js`. -/
structure Ratings where
  rating_of_instruction : ℚ
  rating_of_course : ℚ
  estimated_learning : ℚ
  intellectual_challenge : ℚ
  stimulating_instructor : ℚ
  time_survey : TimeVal
deriving DecidableEq

/-- The all-zero "no data" shape returned for missing input. -/
def zeroRatings : Ratings :=
  { rating_of_instruction := 0
    rating_of_course := 0
    estimated_learning := 0
    intellectual_challenge := 0
    stimulating_instructor := 0
    time_survey := .num 0 }

/-- One iteration of the `forEach`/`switch` in `processSurveyResponses`:
assignment per recognized question key (later rows overwrite earlier
ones), unknown keys ignored. -/
def responseStep (acc : Ratings) (r : SurveyResponse) : Ratings :=
  if r.survey_question = "rating_of_instruction" then
    { acc with rating_of_instruction := calculateAverageRating r.distribution }
  else if r.survey_question = "rating_of_course" then
    { acc with rating_of_course := calculateAverageRating r.distribution }
  else if r.survey_question = "estimated_learning" then
    { acc with estimated_learning := calculateAverageRating r.distribution }
  else if r.survey_question = "intellectual_challenge" then
    { acc with intellectual_challenge := calculateAverageRating r.distribution }
  else if r.survey_question = "stimulating_instructor" then
    { acc with stimulating_instructor := calculateAverageRating r.distribution }
  else if r.survey_question = "time_survey" then
    { acc with time_survey := .str (calculateMode r.distribution) }
  else acc

/-- `processSurveyResponses` from `ratingCalculations.js`: per-question
weighted averages (mode for the workload question), each numeric metric
rounded to one decimal place, zeros when the list is empty. -/
def processSurveyResponses (rs : List SurveyResponse) : Ratings :=
  if rs.isEmpty then zeroRatings
  else
    let f := rs.foldl responseStep zeroRatings
    { rating_of_instruction := round1 f.rating_of_instruction
      rating_of_course := round1 f.rating_of_course
      estimated_learning := round1 f.estimated_learning
      intellectual_challenge := round1 f.intellectual_challenge
      stimulating_instructor := round1 f.stimulating_instructor
      time_survey := f.time_survey }

/-- One course offering as consumed by `calculateProfessorAverages`
(only its `survey_responses` field is read). -/
structure CourseOffering where
  survey_responses : List SurveyResponse
deriving DecidableEq

/-- A `{ total, count }` accumulator of `calculateProfessorAverages`. -/
structure NumAcc where
  total : ℚ
  count : ℕ
deriving DecidableEq

/-- The `value > 0` guarded accumulation of `calculateProfessorAverages`. -/
def bumpNum (a : NumAcc) (v : ℚ) : NumAcc :=
  if v > 0 then { total := a.total + v, count := a.count + 1 } else a

/-- The `timeSurveyCounts[k] = (timeSurveyCounts[k] || 0) + 1` update on
the insertion-ordered JS object (existing keys keep their position). -/
def bumpTime : List (String × ℤ) → String → List (String × ℤ)
  | [], k => [(k, 1)]
  | (kk, v) :: rest, k =>
    if kk = k then (kk, v + 1) :: rest else (kk, v) :: bumpTime rest k

/-- The JS guard `timeValue && timeValue !== 0` and the use of the value
as an object key.  `processSurveyResponses` only ever yields `num 0` or a
`str` here (see `processSurveyResponses_time_shape`), so a truthy number
(which JS would stringify) is unreachable and not modeled. -/
def timeDataKey : TimeVal → Option String
  | .num _ => none
  | .str s => if s = "" then none else some s

/-- Accumulator record of `calculateProfessorAverages`. -/
structure ProfAcc where
  roi : NumAcc
  roc : NumAcc
  el : NumAcc
  ic : NumAcc
  si : NumAcc
  timeCounts : List (String × ℤ)
deriving DecidableEq

def initProfAcc : ProfAcc :=
  { roi := ⟨0, 0⟩, roc := ⟨0, 0⟩, el := ⟨0, 0⟩, ic := ⟨0, 0⟩, si := ⟨0, 0⟩,
    timeCounts := [] }

/-- One iteration of the offerings loop in `calculateProfessorAverages`:
offerings without survey responses are skipped (`continue`). -/
def profStep (acc : ProfAcc) (o : CourseOffering) : ProfAcc :=
  if o.survey_responses.isEmpty then acc
  else
    let r := processSurveyResponses o.survey_responses
    { roi := bumpNum acc.roi r.rating_of_instruction
      roc := bumpNum acc.roc r.rating_of_course
      el := bumpNum acc.el r.estimated_learning
      ic := bumpNum acc.ic r.intellectual_challenge
      si := bumpNum acc.si r.stimulating_instructor
      timeCounts :=
        match timeDataKey r.time_survey with
        | some k => bumpTime acc.timeCounts k
        | none => acc.timeCounts }

/-- The final per-metric average of `calculateProfessorAverages`. -/
def finalizeNum (a : NumAcc) : ℚ :=
  if a.count > 0 then round1 (a.total / (a.count : ℚ)) else 0

/-- `calculateProfessorAverages` from `ratingCalculations.js`: averages the
per-offering summaries over offerings with a positive value per metric,
takes the mode of the per-offering workload buckets, and returns the
all-zero shape on empty input (`calculateMode(...) || 0` maps the empty
sentinel back to the number 0). -/
def calculateProfessorAverages (offs : List CourseOffering) : Ratings :=
  if offs.isEmpty then zeroRatings
  else
    let acc := offs.foldl profStep initProfAcc
    { rating_of_instruction := finalizeNum acc.roi
      rating_of_course := finalizeNum acc.roc
      estimated_learning := finalizeNum acc.el
      intellectual_challenge := finalizeNum acc.ic
      stimulating_instructor := finalizeNum acc.si
      time_survey :=
        match calculateMode acc.timeCounts with
        | "" => .num 0
        | m => .str m }

/-- Per-offering summary (the spec's `summarizeOffering`). -/
def offeringSummary (o : CourseOffering) : Ratings :=
  processSurveyResponses o.survey_responses

/-- A well-formed distribution per the data model: counts non-negative,
labels non-negative (ratings "1".."6", bucket and free-text labels). -/
def WfDist (d : Distribution) : Prop :=
  ∀ p ∈ d, 0 ≤ p.2 ∧ nonNegLabel p.1 = true

instance (d : Distribution) : Decidable (WfDist d) := by
  unfold WfDist
  infer_instance

/-- Well-formed offerings: every response distribution is well-formed. -/
def WfOfferings (offs : List CourseOffering) : Prop :=
  ∀ o ∈ offs, ∀ r ∈ o.survey_responses, WfDist r.distribution

instance (offs : List CourseOffering) : Decidable (WfOfferings offs) := by
  unfold WfOfferings
  infer_instance

theorem mem_numericEntries (d : Distribution) (e : ℚ × ℤ)
    (he : e ∈ numericEntries d) :
    ∃ p ∈ d, parseFloat p.1 = some e.1 ∧ p.2 = e.2 := by
  unfold numericEntries at he
  rw [List.mem_filterMap] at he
  obtain ⟨p, hp, hmap⟩ := he
  rw [Option.map_eq_some'] at hmap
  obtain ⟨q, hq, heq⟩ := hmap
  subst heq
  exact ⟨p, hp, hq, rfl⟩

theorem calculateAverageRating_nonneg (d : Distribution) (h : WfDist d) :
    0 ≤ calculateAverageRating d := by
  have hcounts : ∀ p ∈ d, 0 ≤ p.2 := fun p hp => (h p hp).1
  rw [weightedAverage_spec.1 d hcounts]
  split
  · apply div_nonneg
    · apply List.sum_nonneg
      intro x hx
      rw [List.mem_map] at hx
      obtain ⟨e, he, hex⟩ := hx
      obtain ⟨p, hp, hpf, hpc⟩ := mem_numericEntries d e he
      subst hex
      have h1 : 0 ≤ e.1 := parseFloat_nonneg p.1 (h p hp).2 e.1 hpf
      have h2 : (0:ℚ) ≤ (e.2 : ℚ) := by
        have := (h p hp).1
        rw [hpc] at this
        exact_mod_cast this
      exact mul_nonneg h1 h2
    · have hpos : 0 < numericTotalCount d := by assumption
      exact_mod_cast hpos.le
  · exact le_refl 0

theorem round1_nonneg (x : ℚ) (h : 0 ≤ x) : 0 ≤ round1 x := by
  unfold round1 jsRound
  apply div_nonneg _ (by norm_num)
  have : (0:ℤ) ≤ ⌊x * 10 + 1 / 2⌋ := by
    apply Int.le_floor.mpr
    push_cast
    nlinarith
  exact_mod_cast this

/-- The five numeric fields of a `Ratings` record are non-negative. -/
def NonnegFields (x : Ratings) : Prop :=
  0 ≤ x.rating_of_instruction ∧ 0 ≤ x.rating_of_course ∧
  0 ≤ x.estimated_learning ∧ 0 ≤ x.intellectual_challenge ∧
  0 ≤ x.stimulating_instructor

theorem responseStep_nonneg (acc : Ratings) (r : SurveyResponse)
    (hwf : WfDist r.distribution) (ha : NonnegFields acc) :
    NonnegFields (responseStep acc r) := by
  obtain ⟨h1, h2, h3, h4, h5⟩ := ha
  have hc : 0 ≤ calculateAverageRating r.distribution :=
    calculateAverageRating_nonneg r.distribution hwf
  unfold responseStep NonnegFields
  split_ifs <;> exact ⟨by assumption, by assumption, by assumption, by assumption, by assumption⟩

theorem foldl_responseStep_nonneg (rs : List SurveyResponse)
    (h : ∀ r ∈ rs, WfDist r.distribution) (acc : Ratings)
    (ha : NonnegFields acc) : NonnegFields (rs.foldl responseStep acc) := by
  induction rs generalizing acc with
  | nil => exact ha
  | cons r rest ih =>
    simp only [List.foldl_cons]
    exact ih (fun q hq => h q (by simp [hq])) _
      (responseStep_nonneg acc r (h r (by simp)) ha)

theorem processSurveyResponses_nonneg (rs : List SurveyResponse)
    (h : ∀ r ∈ rs, WfDist r.distribution) :
    NonnegFields (processSurveyResponses rs) := by
  unfold processSurveyResponses
  split
  · exact ⟨le_refl 0, le_refl 0, le_refl 0, le_refl 0, le_refl 0⟩
  · have := foldl_responseStep_nonneg rs h zeroRatings
      ⟨le_refl 0, le_refl 0, le_refl 0, le_refl 0, le_refl 0⟩
    obtain ⟨h1, h2, h3, h4, h5⟩ := this
    exact ⟨round1_nonneg _ h1, round1_nonneg _ h2, round1_nonneg _ h3,
      round1_nonneg _ h4, round1_nonneg _ h5⟩

/-- The `time_survey` field is only ever the number 0 or a string. -/
theorem processSurveyResponses_time_shape (rs : List SurveyResponse) :
    (processSurveyResponses rs).time_survey = TimeVal.num 0 ∨
    ∃ s, (processSurveyResponses rs).time_survey = TimeVal.str s := by
  have key : ∀ (l : List SurveyResponse) (acc : Ratings),
      acc.time_survey = TimeVal.num 0 ∨ (∃ s, acc.time_survey = TimeVal.str s) →
      (l.foldl responseStep acc).time_survey = TimeVal.num 0 ∨
      ∃ s, (l.foldl responseStep acc).time_survey = TimeVal.str s := by
    intro l
    induction l with
    | nil => exact fun acc ha => ha
    | cons r rest ih =>
      intro acc ha
      simp only [List.foldl_cons]
      apply ih
      unfold responseStep
      split_ifs <;> simp_all
  unfold processSurveyResponses
  split
  · exact Or.inl rfl
  · exact key rs zeroRatings (Or.inl rfl)

theorem offeringSummary_empty (o : CourseOffering)
    (h : o.survey_responses.isEmpty = true) : offeringSummary o = zeroRatings := by
  unfold offeringSummary processSurveyResponses
  rw [if_pos h]

/-- Per-field view of the offerings loop: guarded `{ total, count }`
accumulation for one metric extractor. -/
def numFold (g : CourseOffering → ℚ) (a : NumAcc) : List CourseOffering → NumAcc
  | [] => a
  | o :: rest =>
    numFold g (if o.survey_responses.isEmpty then a else bumpNum a (g o)) rest

/-- Per-field view of the offerings loop: workload bucket tallying. -/
def tcFold (t : List (String × ℤ)) : List CourseOffering → List (String × ℤ)
  | [] => t
  | o :: rest =>
    tcFold
      (if o.survey_responses.isEmpty then t
       else
         match timeDataKey (offeringSummary o).time_survey with
         | some k => bumpTime t k
         | none => t) rest

theorem foldl_profStep_eq (offs : List CourseOffering) (acc : ProfAcc) :
    offs.foldl profStep acc =
      { roi := numFold (fun o => (offeringSummary o).rating_of_instruction) acc.roi offs
        roc := numFold (fun o => (offeringSummary o).rating_of_course) acc.roc offs
        el := numFold (fun o => (offeringSummary o).estimated_learning) acc.el offs
        ic := numFold (fun o => (offeringSummary o).intellectual_challenge) acc.ic offs
        si := numFold (fun o => (offeringSummary o).stimulating_instructor) acc.si offs
        timeCounts := tcFold acc.timeCounts offs } := by
  induction offs generalizing acc with
  | nil => rfl
  | cons o rest ih =>
    simp only [List.foldl_cons, numFold, tcFold]
    rw [ih]
    unfold profStep
    by_cases he : o.survey_responses.isEmpty
    · simp [he]
    · simp [he, offeringSummary]

theorem numFold_spec (g : CourseOffering → ℚ) (offs : List CourseOffering)
    (h0 : ∀ o ∈ offs, o.survey_responses.isEmpty = true → g o = 0) (a : NumAcc) :
    numFold g a offs =
      { total := a.total + ((offs.map g).filter (fun v => decide (0 < v))).sum
        count := a.count + ((offs.map g).filter (fun v => decide (0 < v))).length } := by
  induction offs generalizing a with
  | nil => simp [numFold]
  | cons o rest ih =>
    have h0r : ∀ q ∈ rest, q.survey_responses.isEmpty = true → g q = 0 :=
      fun q hq => h0 q (by simp [hq])
    simp only [numFold, List.map_cons, List.filter_cons]
    by_cases he : o.survey_responses.isEmpty
    · have hz : g o = 0 := h0 o (by simp) he
      rw [if_pos he]
      rw [ih h0r a]
      simp [hz]
    · rw [if_neg he]
      by_cases hv : 0 < g o
      · have hb : bumpNum a (g o) = { total := a.total + g o, count := a.count + 1 } := by
          unfold bumpNum
          rw [if_pos hv]
        rw [hb, ih h0r]
        simp only [decide_eq_true hv, if_true, List.sum_cons, List.length_cons]
        exact congrArg₂ NumAcc.mk (by ring) (by omega)
      · have hb : bumpNum a (g o) = a := by
          unfold bumpNum
          rw [if_neg hv]
        rw [hb, ih h0r]
        simp only [decide_eq_false hv]
        simp

theorem tcFold_spec (offs : List CourseOffering) (t : List (String × ℤ)) :
    tcFold t offs =
      (offs.filterMap (fun o => timeDataKey (offeringSummary o).time_survey)).foldl
        bumpTime t := by
  induction offs generalizing t with
  | nil => rfl
  | cons o rest ih =>
    simp only [tcFold, List.filterMap_cons]
    by_cases he : o.survey_responses.isEmpty
    · rw [if_pos he, offeringSummary_empty o he]
      simp only [zeroRatings, timeDataKey]
      exact ih t
    · rw [if_neg he]
      cases hk : timeDataKey (offeringSummary o).time_survey with
      | none => exact ih t
      | some k =>
        simp only [List.foldl_cons]
        exact ih (bumpTime t k)

/-- Claim-side per-metric average: the metric values of the offerings
that report a non-zero value for it (independently per metric). -/
def metricAvgSpec (offs : List CourseOffering) (f : Ratings → ℚ) : ℚ :=
  let vals := (offs.map (fun o => f (offeringSummary o))).filter (fun v => decide (v ≠ 0))
  if 0 < vals.length then round1 (vals.sum / (vals.length : ℚ)) else 0

/-- Claim-side list of per-offering modal workload buckets (offerings with
no workload data contribute nothing). -/
def modalBuckets (offs : List CourseOffering) : List String :=
  offs.filterMap (fun o => timeDataKey (offeringSummary o).time_survey)

/-- Occurrence tally of a list of bucket labels, first-encounter order. -/
def bucketTally (l : List String) : List (String × ℤ) :=
  l.foldl bumpTime []

/-- Claim-side instructor summary (the spec's `summarizeInstructor`):
per-metric averages over non-zero reporters, mode of the per-offering
modal buckets for workload, the all-zero shape for no offerings. -/
def summarizeInstructorSpec (offs : List CourseOffering) : Ratings :=
  if offs.isEmpty then zeroRatings
  else
    { rating_of_instruction := metricAvgSpec offs (fun x => x.rating_of_instruction)
      rating_of_course := metricAvgSpec offs (fun x => x.rating_of_course)
      estimated_learning := metricAvgSpec offs (fun x => x.estimated_learning)
      intellectual_challenge := metricAvgSpec offs (fun x => x.intellectual_challenge)
      stimulating_instructor := metricAvgSpec offs (fun x => x.stimulating_instructor)
      time_survey :=
        match calculateMode (bucketTally (modalBuckets offs)) with
        | "" => .num 0
        | m => .str m }

theorem filter_pos_eq_filter_ne (l : List ℚ) (h : ∀ v ∈ l, 0 ≤ v) :
    l.filter (fun v => decide (0 < v)) = l.filter (fun v => decide (v ≠ 0)) := by
  apply List.filter_congr
  intro v hv
  have hle := h v hv
  rw [decide_eq_decide]
  constructor
  · intro hlt
    exact ne_of_gt hlt
  · intro hne
    exact lt_of_le_of_ne hle (Ne.symm hne)

theorem finalize_numFold_eq_metricAvg (offs : List CourseOffering)
    (hwf : WfOfferings offs) (f : Ratings → ℚ)
    (hpos : ∀ x, NonnegFields x → 0 ≤ f x) (hz : f zeroRatings = 0) :
    finalizeNum (numFold (fun o => f (offeringSummary o)) ⟨0, 0⟩ offs) =
      metricAvgSpec offs f := by
  have h0 : ∀ o ∈ offs, o.survey_responses.isEmpty = true →
      f (offeringSummary o) = 0 := by
    intro o ho he
    rw [offeringSummary_empty o he]
    exact hz
  rw [numFold_spec (fun o => f (offeringSummary o)) offs h0 ⟨0, 0⟩]
  have hfilter :
      ((offs.map (fun o => f (offeringSummary o))).filter (fun v => decide (0 < v))) =
      ((offs.map (fun o => f (offeringSummary o))).filter (fun v => decide (v ≠ 0))) := by
    apply filter_pos_eq_filter_ne
    intro v hv
    rw [List.mem_map] at hv
    obtain ⟨o, ho, rfl⟩ := hv
    exact hpos _ (processSurveyResponses_nonneg _ (hwf o ho))
  unfold finalizeNum metricAvgSpec
  rw [hfilter]
  simp only [zero_add]

/-- C7: for every well-formed list of offerings, the instructor roll-up
equals the claim-side summary: each numeric metric is averaged only over
the offerings whose per-offering summary reports a non-zero value for
that metric (zero/no-data offerings are excluded, not treated as zero),
the workload metric is the mode of the per-offering modal buckets
(mode-of-modes, not a numeric average), and the all-zero "no data" shape
is returned when there are zero offerings or none report any data. -/
theorem summarizeInstructor_correct :
    (∀ offs : List CourseOffering, WfOfferings offs →
      calculateProfessorAverages offs = summarizeInstructorSpec offs)
    ∧ calculateProfessorAverages [] = zeroRatings
    ∧ (∀ offs : List CourseOffering,
        (∀ o ∈ offs, offeringSummary o = zeroRatings) →
        calculateProfessorAverages offs = zeroRatings) := by
  have fold_id : ∀ (offs : List CourseOffering) (acc : ProfAcc),
      (∀ o ∈ offs, offeringSummary o = zeroRatings) →
      offs.foldl profStep acc = acc := by
    intro offs
    induction offs with
    | nil => intro acc _; rfl
    | cons o rest ih =>
      intro acc h
      simp only [List.foldl_cons]
      have hstep : profStep acc o = acc := by
        unfold profStep
        by_cases he : o.survey_responses.isEmpty
        · rw [if_pos he]
        · rw [if_neg he]
          have hs : processSurveyResponses o.survey_responses = zeroRatings :=
            h o (by simp)
          simp only [hs, zeroRatings]
          show ProfAcc.mk (bumpNum acc.roi 0) (bumpNum acc.roc 0) (bumpNum acc.el 0)
            (bumpNum acc.ic 0) (bumpNum acc.si 0)
            (match timeDataKey (.num 0) with
             | some k => bumpTime acc.timeCounts k
             | none => acc.timeCounts) = acc
          have hb : ∀ a : NumAcc, bumpNum a 0 = a := by
            intro a
            unfold bumpNum
            rw [if_neg (by norm_num)]
          simp only [hb, timeDataKey]
      rw [hstep]
      exact ih acc (fun q hq => h q (by simp [hq]))
  refine ⟨fun offs hwf => ?_, rfl, fun offs hz => ?_⟩
  · by_cases he : offs.isEmpty
    · rw [List.isEmpty_iff.mp he]
      rfl
    · unfold calculateProfessorAverages summarizeInstructorSpec
      rw [if_neg he, if_neg he, foldl_profStep_eq]
      have hroi := finalize_numFold_eq_metricAvg offs hwf
        (fun x => x.rating_of_instruction) (fun x hx => hx.1) rfl
      have hroc := finalize_numFold_eq_metricAvg offs hwf
        (fun x => x.rating_of_course) (fun x hx => hx.2.1) rfl
      have hel := finalize_numFold_eq_metricAvg offs hwf
        (fun x => x.estimated_learning) (fun x hx => hx.2.2.1) rfl
      have hic := finalize_numFold_eq_metricAvg offs hwf
        (fun x => x.intellectual_challenge) (fun x hx => hx.2.2.2.1) rfl
      have hsi := finalize_numFold_eq_metricAvg offs hwf
        (fun x => x.stimulating_instructor) (fun x hx => hx.2.2.2.2) rfl
      have htc : tcFold initProfAcc.timeCounts offs = bucketTally (modalBuckets offs) := by
        rw [tcFold_spec]
        rfl
      simp only [Ratings.mk.injEq]
      exact ⟨hroi, hroc, hel, hic, hsi, by rw [htc]⟩
  · unfold calculateProfessorAverages
    by_cases he : offs.isEmpty
    · rw [if_pos he]
    · rw [if_neg he, fold_id offs initProfAcc hz]
      rfl

/-- Witness for `summarizeInstructor_correct`: its parts applied at a
concrete two-offering instructor (one offering with instruction rating
and workload data, one with only an instruction rating). -/
theorem summarizeInstructor_correct_witness :
    calculateProfessorAverages
        [⟨[⟨"rating_of_instruction", [("5", 2)]⟩, ⟨"time_survey", [("4 - 7", 3)]⟩]⟩,
         ⟨[⟨"rating_of_instruction", [("3", 2)]⟩]⟩] =
      summarizeInstructorSpec
        [⟨[⟨"rating_of_instruction", [("5", 2)]⟩, ⟨"time_survey", [("4 - 7", 3)]⟩]⟩,
         ⟨[⟨"rating_of_instruction", [("3", 2)]⟩]⟩]
    ∧ calculateProfessorAverages
        [⟨[]⟩, ⟨[]⟩] = zeroRatings :=
  ⟨summarizeInstructor_correct.1 _ (by decide),
   summarizeInstructor_correct.2.2 [⟨[]⟩, ⟨[]⟩] (by decide)⟩

/-- Requirement taxonomy entry (referenced by id). -/
structure Requirement where
  id : String
  name : String
deriving DecidableEq

/-- A `course_requirements` join row as selected by `offerings.ts`; the
nested `requirement` may be null (filtered out by `.filter(Boolean)`). -/
structure CourseReqRef where
  requirement : Option Requirement
deriving DecidableEq

/-- Course record with its requirement references. -/
structure Course where
  id : String
  code : String
  title : String
  school : String
  requirements : List CourseReqRef
deriving DecidableEq

/-- Instructor record. -/
structure Instructor where
  id : String
  name : String
deriving DecidableEq

/-- Quarter enum.  The database column is text, so PostgREST descending
order on it is alphabetical-descending: Winter > Summer > Spring > Fall. -/
inductive Quarter
  | Fall
  | Spring
  | Summer
  | Winter
deriving DecidableEq

/-- Alphabetical rank of the quarter's text representation. -/
def quarterRank : Quarter → Nat
  | .Fall => 0
  | .Spring => 1
  | .Summer => 2
  | .Winter => 3

/-- A `course_offerings` row with the joins selected by `searchOfferings`
(`offerings.ts`).  `course_id`/`instructor_id` are the filter columns;
the nested `course`/`instructor` come from the inner joins. -/
structure Offering where
  id : String
  «section» : String
  quarter : Quarter
  year : Int
  audience_size : Int
  response_count : Int
  course_id : String
  instructor_id : String
  course : Course
  instructor : Instructor
  survey_responses : List SurveyResponse
deriving DecidableEq

/-- The row filter of `searchOfferings`: `.in('course_id', courseIds)` and
`.in('instructor_id', instructorIds)`, each applied only when the id list
is non-empty, hence ANDed with an omitted filter imposing no constraint. -/
def matchesFilters (courseIds instructorIds : List String) (o : Offering) : Bool :=
  (courseIds.isEmpty || courseIds.contains o.course_id) &&
  (instructorIds.isEmpty || instructorIds.contains o.instructor_id)

/-- The ordering requested by `searchOfferings`: year descending, then
quarter descending.  The source orders by nothing else — in particular
not by id — so rows tied on both keys have no requested relative order. -/
def offeringLE (a b : Offering) : Prop :=
  b.year < a.year ∨ (b.year = a.year ∧ quarterRank b.quarter ≤ quarterRank a.quarter)

instance offeringLE.dec : DecidableRel offeringLE := fun a b =>
  inferInstanceAs (Decidable (_ ∨ _ ∧ _))

instance : IsTotal Offering offeringLE :=
  ⟨by intro a b; unfold offeringLE; omega⟩

instance : IsTrans Offering offeringLE :=
  ⟨by intro a b c; unfold offeringLE; omega⟩

/-- The `{ data, count }` shape returned by `searchOfferings` (PostgREST
`count: 'exact'` reports the pre-range match count). -/
structure QueryResult where
  data : List Offering
  count : Nat
deriving DecidableEq

/-- `searchOfferings` from `src/frontend/src/services/offerings.ts` over a
store of rows: AND of the two optional membership filters, ORDER BY year
descending then quarter descending, range `[offset, offset+limit-1]`, and
the exact pre-range match count.  The `requirements` argument is accepted
and ignored (the source's requirements branch is an empty TODO).  The sort
is modeled as a stable sort: the database promises no particular order for
rows tied on (year, quarter), and keeping store order realizes one
admissible execution. -/
def searchOfferings (store : List Offering)
    (courseIds instructorIds requirements : List String)
    (limit offset : Nat) : QueryResult :=
  let filtered := store.filter (matchesFilters courseIds instructorIds)
  let sorted := filtered.insertionSort offeringLE
  { data := (sorted.drop offset).take limit, count := filtered.length }

/-- The requirement-reference ids of an offering, as computed by
`filterResultsByRequirements` in `CourseFilter.jsx`:
`course.requirements.map(r => r.requirement).filter(Boolean).map(r => r.id)`. -/
def requirementIds (o : Offering) : List String :=
  ((o.course.requirements.map (fun r => r.requirement)).reduceOption).map
    (fun r => r.id)

/-- `filterResultsByRequirements` from `CourseFilter.jsx`: pass-through on
an empty selection, otherwise keep offerings whose requirement ids meet
the selected set (`selectedRequirements.some(id => requirementIds.includes(id))`). -/
def filterResultsByRequirements (selectedRequirements : List String)
    (data : List Offering) : List Offering :=
  if selectedRequirements.isEmpty then data
  else
    data.filter (fun o =>
      selectedRequirements.any (fun rid => (requirementIds o).contains rid))

theorem matchesFilters_eq_true_iff (cids iids : List String) (o : Offering) :
    matchesFilters cids iids o = true ↔
      (cids = [] ∨ o.course_id ∈ cids) ∧ (iids = [] ∨ o.instructor_id ∈ iids) := by
  unfold matchesFilters
  simp [List.isEmpty_iff]

/-- C4 (amended part): every `searchOfferings` result page is sorted by
year descending then quarter descending, every returned row satisfies the
AND of the optional course-id and instructor-id membership filters (an
omitted filter imposing no constraint), and the reported count is the
exact number of matching rows in the store. -/
theorem searchOfferings_order_and_filter (store : List Offering)
    (cids iids reqs : List String) (limit offset : Nat) :
    List.Sorted offeringLE (searchOfferings store cids iids reqs limit offset).data
    ∧ (∀ o ∈ (searchOfferings store cids iids reqs limit offset).data,
        (cids = [] ∨ o.course_id ∈ cids) ∧ (iids = [] ∨ o.instructor_id ∈ iids))
    ∧ (searchOfferings store cids iids reqs limit offset).count =
        (store.filter (matchesFilters cids iids)).length := by
  refine ⟨?_, ?_, rfl⟩
  · have hsorted : List.Sorted offeringLE
        ((store.filter (matchesFilters cids iids)).insertionSort offeringLE) :=
      List.sorted_insertionSort offeringLE _
    have hsub : ((((store.filter (matchesFilters cids iids)).insertionSort
        offeringLE).drop offset).take limit).Sublist
        ((store.filter (matchesFilters cids iids)).insertionSort offeringLE) :=
      (List.take_sublist _ _).trans (List.drop_sublist _ _)
    exact List.Pairwise.sublist hsub hsorted
  · intro o ho
    unfold searchOfferings at ho
    simp only at ho
    have hmem : o ∈ (store.filter (matchesFilters cids iids)).insertionSort offeringLE := by
      have hsub : ((((store.filter (matchesFilters cids iids)).insertionSort
          offeringLE).drop offset).take limit).Sublist
          ((store.filter (matchesFilters cids iids)).insertionSort offeringLE) :=
        (List.take_sublist _ _).trans (List.drop_sublist _ _)
      exact hsub.subset ho
    have : o ∈ store.filter (matchesFilters cids iids) :=
      (List.perm_insertionSort offeringLE _).subset hmem
    rw [List.mem_filter] at this
    exact (matchesFilters_eq_true_iff cids iids o).mp this.2

/-- A row tied with another on (year, quarter) but with a smaller id,
appearing after it in the store. -/
def offTieA : Offering :=
  { id := "a", «section» := "1", quarter := .Fall, year := 2024,
    audience_size := 0, response_count := 0,
    course_id := "c1", instructor_id := "i1",
    course := ⟨"c1", "CS_111", "Intro", "WCAS", []⟩,
    instructor := ⟨"i1", "Prof"⟩, survey_responses := [] }

/-- Same (year, quarter) as `offTieA`, id "b". -/
def offTieB : Offering :=
  { id := "b", «section» := "2", quarter := .Fall, year := 2024,
    audience_size := 0, response_count := 0,
    course_id := "c1", instructor_id := "i1",
    course := ⟨"c1", "CS_111", "Intro", "WCAS", []⟩,
    instructor := ⟨"i1", "Prof"⟩, survey_responses := [] }

/-- C4 counterexample: `searchOfferings` orders only by year then quarter
and requests no id tiebreaker, so two stores holding the same two rows
tied on (year, quarter) in opposite insertion orders yield result pages
in opposite orders — the ordering is not "year desc, quarter desc, then
id", and offsets over tied rows are not id-stable. -/
theorem searchOfferings_no_id_tiebreaker :
    (searchOfferings [offTieB, offTieA] ["c1"] [] [] 10 0).data = [offTieB, offTieA]
    ∧ (searchOfferings [offTieA, offTieB] ["c1"] [] [] 10 0).data = [offTieA, offTieB]
    ∧ offTieA.id ≠ offTieB.id
    ∧ offTieA.year = offTieB.year
    ∧ offTieA.quarter = offTieB.quarter := by
  refine ⟨?_, ?_, ?_, rfl, rfl⟩ <;> decide

/-- Witness for `searchOfferings_order_and_filter`: applied at a concrete
store, with the membership implication discharged at a concrete row. -/
theorem searchOfferings_order_and_filter_witness :
    List.Sorted offeringLE (searchOfferings [offTieA, offTieB] ["c1"] [] [] 10 0).data
    ∧ ((["c1"] = [] ∨ offTieA.course_id ∈ ["c1"]) ∧
        (([] : List String) = [] ∨ offTieA.instructor_id ∈ ([] : List String)))
    ∧ (searchOfferings [offTieA, offTieB] ["c1"] [] [] 10 0).count =
        ([offTieA, offTieB].filter (matchesFilters ["c1"] [])).length := by
  have h := searchOfferings_order_and_filter [offTieA, offTieB] ["c1"] [] [] 10 0
  exact ⟨h.1, h.2.1 offTieA (by decide), h.2.2⟩

/-- C9: requirement filtering is applied client-side after retrieval and
never in the server request — `searchOfferings` is independent of the
requirements argument (its branch in the source is an empty TODO), and
`filterResultsByRequirements` keeps an offering iff at least one of its
requirement-reference ids is in the selected set (OR semantics), or the
selected set is empty (pass-through). -/
theorem requirementFilter_client_side :
    (∀ (store : List Offering) (cids iids r1 r2 : List String) (limit offset : Nat),
      searchOfferings store cids iids r1 limit offset =
        searchOfferings store cids iids r2 limit offset)
    ∧ (∀ (sel : List String) (data : List Offering) (o : Offering),
        o ∈ filterResultsByRequirements sel data ↔
          o ∈ data ∧ (sel = [] ∨ ∃ rid ∈ requirementIds o, rid ∈ sel)) := by
  refine ⟨fun _ _ _ _ _ _ _ => rfl, fun sel data o => ?_⟩
  unfold filterResultsByRequirements
  by_cases hs : sel.isEmpty
  · rw [if_pos hs]
    have hnil : sel = [] := List.isEmpty_iff.mp hs
    simp [hnil]
  · rw [if_neg hs]
    have hne : ¬ sel = [] := fun hh => hs (by simp [hh])
    rw [List.mem_filter]
    simp only [hne, false_or]
    constructor
    · rintro ⟨hmem, hany⟩
      refine ⟨hmem, ?_⟩
      rw [List.any_eq_true] at hany
      obtain ⟨rid, hrid, hc⟩ := hany
      have : rid ∈ requirementIds o := by simpa using hc
      exact ⟨rid, this, hrid⟩
    · rintro ⟨hmem, rid, hr, hrs⟩
      refine ⟨hmem, ?_⟩
      rw [List.any_eq_true]
      exact ⟨rid, hrs, by simpa⟩

/-- The pagination-related state of the `SearchResults` component
(`CourseFilter.jsx`, paginated variant). -/
structure PageState where
  results : List Offering
  loading : Bool
  loadingMore : Bool
  error : Option String
  hasMore : Bool
  currentOffset : Nat
  totalCount : Nat
deriving DecidableEq

/-- The `useState` initial values of the component. -/
def initialPageState : PageState :=
  { results := [], loading := false, loadingMore := false, error := none,
    hasMore := true, currentOffset := 0, totalCount := 0 }

/-- `resetPagination` from `SearchResults`. -/
def resetPagination (st : PageState) : PageState :=
  { st with
    results := []
    currentOffset := 0
    hasMore := true
    totalCount := 0
    error := none }

/-- The filter selection passed into `SearchResults` (the component maps
its course/instructor objects to their ids before querying). -/
structure Selection where
  courseIds : List String
  instructorIds : List String
  requirements : List String
deriving DecidableEq

/-- `fetchInitialResults` run to completion on the success path with the
store answering synchronously (the interleaved model below covers
overlapping requests): short-circuit reset on an empty selection,
otherwise fetch page `[0, 10)`, post-filter by requirements, replace the
result list, set the offset to 10 and compute `hasMore`. -/
def fetchInitial (store : List Offering) (sel : Selection) (st : PageState) :
    PageState :=
  if sel.courseIds.isEmpty && sel.instructorIds.isEmpty then
    resetPagination st
  else
    let st1 := resetPagination { st with loading := true, error := none }
    let result := searchOfferings store sel.courseIds sel.instructorIds
      sel.requirements 10 0
    let filtered := filterResultsByRequirements sel.requirements result.data
    { st1 with
      results := filtered
      totalCount := result.count
      currentOffset := 10
      hasMore := decide (filtered.length = 10) && decide (filtered.length < result.count)
      loading := false }

/-- `fetchMoreResults` run to completion on the success path: no-op while
`loadingMore` or when `hasMore` is false, otherwise fetch the next page at
the current offset, append the post-filtered page, advance the offset by
10 and recompute `hasMore` from the page length and the cumulative count
against the freshly reported total. -/
def fetchMore (store : List Offering) (sel : Selection) (st : PageState) :
    PageState :=
  if st.loadingMore || !st.hasMore then st
  else
    let result := searchOfferings store sel.courseIds sel.instructorIds
      sel.requirements 10 st.currentOffset
    let filtered := filterResultsByRequirements sel.requirements result.data
    { st with
      results := st.results ++ filtered
      currentOffset := st.currentOffset + 10
      hasMore := decide (filtered.length = 10) &&
        decide (st.results.length + filtered.length < result.count)
      loadingMore := false }

/-- A store row for the 25-offering pagination scenario; years decrease
with the index so the requested descending order equals store order. -/
def scenarioRow (i : Nat) : Offering :=
  { id := "", «section» := "", quarter := .Fall, year := (25 : Int) - i,
    audience_size := 0, response_count := 0,
    course_id := "c1", instructor_id := "i1",
    course := ⟨"c1", "", "", "", []⟩, instructor := ⟨"i1", ""⟩,
    survey_responses := [] }

/-- A store with exactly 25 offerings matching course "c1". -/
def store25 : List Offering := (List.range 25).map scenarioRow

/-- The scenario selection: one course, no instructors, no requirements. -/
def sel25 : Selection := ⟨["c1"], [], []⟩

/-- C3: after every fetch, `hasMore` is true iff the page delivered a full
10 items and the cumulative displayed count is strictly below the
server-reported total (both conditions); and on a store of exactly 25
matching offerings with page size 10, successive fetches reach cumulative
counts 10, 20, 25 with `hasMore` turning false only after the third page,
after which a further `fetchMore` is a no-op. -/
theorem hasMore_pagination_spec :
    (∀ (store : List Offering) (sel : Selection) (st : PageState),
      (sel.courseIds.isEmpty && sel.instructorIds.isEmpty) = false →
      ((fetchInitial store sel st).hasMore = true ↔
        ((fetchInitial store sel st).results.length = 10 ∧
         (fetchInitial store sel st).results.length <
           (fetchInitial store sel st).totalCount)))
    ∧ (∀ (store : List Offering) (sel : Selection) (st : PageState),
        st.loadingMore = false → st.hasMore = true →
        ((fetchMore store sel st).results.length = st.results.length +
            (filterResultsByRequirements sel.requirements
              (searchOfferings store sel.courseIds sel.instructorIds
                sel.requirements 10 st.currentOffset).data).length
         ∧ ((fetchMore store sel st).hasMore = true ↔
            ((filterResultsByRequirements sel.requirements
                (searchOfferings store sel.courseIds sel.instructorIds
                  sel.requirements 10 st.currentOffset).data).length = 10 ∧
             (fetchMore store sel st).results.length <
               (searchOfferings store sel.courseIds sel.instructorIds
                 sel.requirements 10 st.currentOffset).count))))
    ∧ ((fetchInitial store25 sel25 initialPageState).results.length = 10
       ∧ (fetchInitial store25 sel25 initialPageState).hasMore = true
       ∧ (fetchMore store25 sel25 (fetchInitial store25 sel25 initialPageState)).results.length = 20
       ∧ (fetchMore store25 sel25 (fetchInitial store25 sel25 initialPageState)).hasMore = true
       ∧ (fetchMore store25 sel25 (fetchMore store25 sel25
            (fetchInitial store25 sel25 initialPageState))).results.length = 25
       ∧ (fetchMore store25 sel25 (fetchMore store25 sel25
            (fetchInitial store25 sel25 initialPageState))).hasMore = false
       ∧ fetchMore store25 sel25 (fetchMore store25 sel25 (fetchMore store25 sel25
            (fetchInitial store25 sel25 initialPageState))) =
          fetchMore store25 sel25 (fetchMore store25 sel25
            (fetchInitial store25 sel25 initialPageState))) := by
  refine ⟨fun store sel st h => ?_, fun store sel st h1 h2 => ?_, ?_⟩
  · unfold fetchInitial
    rw [if_neg (by simp [h])]
    simp [Bool.and_eq_true, decide_eq_true_iff]
  · unfold fetchMore
    rw [if_neg (by simp [h1, h2])]
    simp [Bool.and_eq_true, decide_eq_true_iff, List.length_append]
  · decide

/-- Witness for `hasMore_pagination_spec`: its two universal parts applied
at the concrete 25-offering scenario. -/
theorem hasMore_pagination_spec_witness :
    ((fetchInitial store25 sel25 initialPageState).hasMore = true ↔
      ((fetchInitial store25 sel25 initialPageState).results.length = 10 ∧
       (fetchInitial store25 sel25 initialPageState).results.length <
         (fetchInitial store25 sel25 initialPageState).totalCount))
    ∧ ((fetchMore store25 sel25 initialPageState).results.length =
        initialPageState.results.length +
          (filterResultsByRequirements sel25.requirements
            (searchOfferings store25 sel25.courseIds sel25.instructorIds
              sel25.requirements 10 initialPageState.currentOffset).data).length
       ∧ ((fetchMore store25 sel25 initialPageState).hasMore = true ↔
          ((filterResultsByRequirements sel25.requirements
              (searchOfferings store25 sel25.courseIds sel25.instructorIds
                sel25.requirements 10 initialPageState.currentOffset).data).length = 10 ∧
           (fetchMore store25 sel25 initialPageState).results.length <
             (searchOfferings store25 sel25.courseIds sel25.instructorIds
               sel25.requirements 10 initialPageState.currentOffset).count))) :=
  ⟨hasMore_pagination_spec.1 store25 sel25 initialPageState (by decide),
   hasMore_pagination_spec.2.1 store25 sel25 initialPageState (by decide) (by decide)⟩

/-- Kind of an in-flight fetch of the `SearchResults` component. -/
inductive ReqKind
  | initial
  | more
deriving DecidableEq

/-- One in-flight `searchOfferings` request: the filter snapshot captured
when it was issued, its page offset, the pre-fetch result-list length
closed over by `fetchMoreResults` for its `hasMore` computation, and the
id of the `AbortController` created for it. -/
structure InFlight where
  kind : ReqKind
  sel : Selection
  offset : Nat
  prevLen : Nat
  ctrl : Nat
deriving DecidableEq

/-- Interleaved state of the `SearchResults` component: the rendered page
state, the set of unresolved requests, the controllers on which `abort()`
has been called, the live `abortControllerRef`, and a fresh-id counter. -/
structure CompState where
  page : PageState
  pending : List InFlight
  aborted : List Nat
  current : Option Nat
  nextCtrl : Nat
deriving DecidableEq

def initialCompState : CompState :=
  { page := initialPageState, pending := [], aborted := [], current := none,
    nextCtrl := 0 }

/-- `fetchInitialResults` up to its `await`: early reset when the
selection is empty (before any abort), otherwise `abort()` the current
controller, install a fresh one, flip on `loading`, reset pagination and
issue the request. -/
def startInitial (sel : Selection) (s : CompState) : CompState :=
  if sel.courseIds.isEmpty && sel.instructorIds.isEmpty then
    { s with page := resetPagination s.page }
  else
    { s with
      page := resetPagination { s.page with loading := true, error := none }
      pending := s.pending ++ [⟨.initial, sel, 0, 0, s.nextCtrl⟩]
      aborted :=
        match s.current with
        | some c => c :: s.aborted
        | none => s.aborted
      current := some s.nextCtrl
      nextCtrl := s.nextCtrl + 1 }

/-- `fetchMoreResults` up to its `await`: no-op while `loadingMore` or
when `hasMore` is false; otherwise abort the current controller, install
a fresh one, flip on `loadingMore` and issue the request at the current
offset, capturing the current result-list length for its closure. -/
def startMore (sel : Selection) (s : CompState) : CompState :=
  if s.page.loadingMore || !s.page.hasMore then s
  else
    { s with
      page := { s.page with loadingMore := true }
      pending := s.pending ++
        [⟨.more, sel, s.page.currentOffset, s.page.results.length, s.nextCtrl⟩]
      aborted :=
        match s.current with
        | some c => c :: s.aborted
        | none => s.aborted
      current := some s.nextCtrl
      nextCtrl := s.nextCtrl + 1 }

/-- Delivery of the response for pending request `r`.  `offerings.ts`
never attaches the controller's signal to the PostgREST request (no
`.abortSignal` call), so the promise resolves normally and the `await`
continuation runs even when `r.ctrl ∈ s.aborted`: calling `abort()` on a
controller no request listens to cancels nothing.  The `initial`
continuation replaces the result list; the `more` continuation appends to
the current list (functional state update) but computes `hasMore` from
the result-list length captured in its closure. -/
def resolve (store : List Offering) (r : InFlight) (s : CompState) : CompState :=
  if r ∈ s.pending then
    let result := searchOfferings store r.sel.courseIds r.sel.instructorIds
      r.sel.requirements 10 r.offset
    let filtered := filterResultsByRequirements r.sel.requirements result.data
    let page' :=
      match r.kind with
      | .initial =>
        { s.page with
          results := filtered
          totalCount := result.count
          currentOffset := 10
          hasMore := decide (filtered.length = 10) &&
            decide (filtered.length < result.count)
          loading := false }
      | .more =>
        { s.page with
          results := s.page.results ++ filtered
          currentOffset := s.page.currentOffset + 10
          hasMore := decide (filtered.length = 10) &&
            decide (r.prevLen + filtered.length < result.count)
          loadingMore := false }
    { s with page := page', pending := s.pending.erase r }
  else s

/-- An offering of course "cA". -/
def offCA : Offering :=
  { id := "oa", «section» := "1", quarter := .Fall, year := 2024,
    audience_size := 0, response_count := 0,
    course_id := "cA", instructor_id := "i1",
    course := ⟨"cA", "CS_101", "Course A", "WCAS", []⟩,
    instructor := ⟨"i1", "Prof"⟩, survey_responses := [] }

/-- An offering of course "cB". -/
def offCB : Offering :=
  { id := "ob", «section» := "1", quarter := .Fall, year := 2024,
    audience_size := 0, response_count := 0,
    course_id := "cB", instructor_id := "i1",
    course := ⟨"cB", "CS_102", "Course B", "WCAS", []⟩,
    instructor := ⟨"i1", "Prof"⟩, survey_responses := [] }

def storeC : List Offering := [offCA, offCB]

def selCA : Selection := ⟨["cA"], [], []⟩

def selCB : Selection := ⟨["cB"], [], []⟩

/-- C1 (code evaluated at the failing input): two `fetchInitial`
invocations in quick succession — course "cA", then course "cB" before
the first resolves.  The second invocation does call `abort()` on the
first's controller (controller 0 is in the aborted set), but because the
signal is never attached to the request, the first request stays pending
and its late response overwrites the state: after the second's response
showed course "cB"'s offerings, the first's response arrives and leaves
the display showing course "cA"'s offerings — not the second
invocation's filters, and a state mutation by an aborted request. -/
theorem fetchInitial_cancellation_bug :
    (0 ∈ (startInitial selCB (startInitial selCA initialCompState)).aborted)
    ∧ ((⟨.initial, selCA, 0, 0, 0⟩ : InFlight) ∈
        (resolve storeC ⟨.initial, selCB, 0, 0, 1⟩
          (startInitial selCB (startInitial selCA initialCompState))).pending)
    ∧ (resolve storeC ⟨.initial, selCB, 0, 0, 1⟩
        (startInitial selCB (startInitial selCA initialCompState))).page.results
        = [offCB]
    ∧ (resolve storeC ⟨.initial, selCA, 0, 0, 0⟩
        (resolve storeC ⟨.initial, selCB, 0, 0, 1⟩
          (startInitial selCB (startInitial selCA initialCompState)))).page.results
        = [offCA]
    ∧ ([offCA] : List Offering) ≠ [offCB] := by
  refine ⟨by decide, by decide, by decide, by decide, by decide⟩

/-- ASCII lowering, modeling Postgres ILIKE case folding on the ASCII
identifiers and names of this system. -/
def asciiLower (c : Char) : Char :=
  if 'A' ≤ c ∧ c ≤ 'Z' then Char.ofNat (c.toNat + 32) else c

/-- Does `hay` start with `needle`? -/
def leadsWith : List Char → List Char → Bool
  | [], _ => true
  | _ :: _, [] => false
  | a :: as, b :: bs => a = b && leadsWith as bs

/-- Does `hay` contain `needle` as a contiguous substring? -/
def hasSub (needle : List Char) : List Char → Bool
  | [] => leadsWith needle []
  | c :: t => leadsWith needle (c :: t) || hasSub needle t

/-- Case-insensitive substring match, modeling `ilike '%needle%'`. -/
def containsCI (hay needle : String) : Bool :=
  hasSub (needle.data.map asciiLower) (hay.data.map asciiLower)

/-- Character-level model of `String.trim` (JS `value.trim()`). -/
def trimChars (s : String) : String :=
  ⟨((s.data.dropWhile isWs).reverse.dropWhile isWs).reverse⟩

/-- `sanitizeForOr` from `search.ts`: trim, then replace each of
`( ) % * ,` with a space. -/
def sanitizeForOr (s : String) : String :=
  ⟨(trimChars s).data.map
    (fun c => if c = '(' ∨ c = ')' ∨ c = '%' ∨ c = '*' ∨ c = ',' then ' ' else c)⟩

/-- Lexicographic byte order on strings (the `order('title')` /
`order('name')` ascending sort of the store, ASCII model). -/
def strLeB : List Char → List Char → Bool
  | [], _ => true
  | _ :: _, [] => false
  | a :: as, b :: bs => if a = b then strLeB as bs else decide (a.toNat < b.toNat)

/-- The store behind the two lookup services. -/
structure SearchStore where
  courses : List Course
  instructors : List Instructor
deriving DecidableEq

/-- Title order used by `searchCourses`. -/
def titleLe (a b : Course) : Prop := strLeB a.title.data b.title.data = true

instance : DecidableRel titleLe := fun a b =>
  inferInstanceAs (Decidable (_ = true))

/-- Name order used by `searchInstructors`. -/
def nameLe (a b : Instructor) : Prop := strLeB a.name.data b.name.data = true

instance : DecidableRel nameLe := fun a b =>
  inferInstanceAs (Decidable (_ = true))

/-- `searchCourses` from `search.ts`: empty result below 2 trimmed
characters, otherwise sanitized case-insensitive substring match on title
or code, ascending by title, capped at `limit` (default 5). -/
def searchCourses (store : SearchStore) (query : String) (limit : Nat) :
    List Course :=
  if query = "" ∨ (trimChars query).length < 2 then []
  else
    let q := sanitizeForOr query
    ((store.courses.filter
        (fun c => containsCI c.title q || containsCI c.code q)).insertionSort
      titleLe).take limit

/-- `searchInstructors` from `search.ts`: as `searchCourses`, on the
instructor name, ascending by name. -/
def searchInstructors (store : SearchStore) (query : String) (limit : Nat) :
    List Instructor :=
  if query = "" ∨ (trimChars query).length < 2 then []
  else
    let q := sanitizeForOr query
    ((store.instructors.filter
        (fun i => containsCI i.name q)).insertionSort nameLe).take limit

/-- The tagged union built by `useSearch` (`type: 'course' | 'instructor'`). -/
inductive SearchResult
  | course (c : Course)
  | instructor (i : Instructor)
deriving DecidableEq

/-- The combined tagged result list of one debounced invocation:
courses first, then instructors, each capped at 5. -/
def combinedResults (store : SearchStore) (q : String) : List SearchResult :=
  (searchCourses store q 5).map .course ++
    (searchInstructors store q 5).map .instructor

/-- State of the `useSearch` hook with its debounce and in-flight
bookkeeping: the pending not-yet-fired debounce callback (a single
timeout slot — scheduling replaces it) and the issued, unresolved
invocations with their creation order. -/
structure IncState where
  query : String
  results : List SearchResult
  loading : Bool
  showDropdown : Bool
  pendingTimer : Option String
  inFlight : List (Nat × String)
  nextTok : Nat
deriving DecidableEq

def initialIncState : IncState :=
  { query := "", results := [], loading := false, showDropdown := false,
    pendingTimer := none, inFlight := [], nextTok := 0 }

/-- `handleInputChange` plus the `useEffect` calling
`debouncedSearch(query)`: `clearTimeout` of the prior timeout and
`setTimeout` for the new query — the single timeout slot is replaced, so
an earlier invocation whose timer has not yet fired never runs. -/
def inputEvent (v : String) (s : IncState) : IncState :=
  { s with
    query := v
    showDropdown := if v = "" then false else s.showDropdown
    pendingTimer := some v }

/-- The debounce timer firing after the 300 ms quiet period: a query
shorter than 2 characters clears results and closes the dropdown with no
lookup; otherwise the two joined lookups are issued.  No token, abort
signal or other identity is recorded for comparison on completion. -/
def timerFires (s : IncState) : IncState :=
  match s.pendingTimer with
  | none => s
  | some q =>
    if q = "" ∨ q.length < 2 then
      { s with results := [], showDropdown := false, pendingTimer := none }
    else
      { s with
        loading := true
        pendingTimer := none
        inFlight := s.inFlight ++ [(s.nextTok, q)]
        nextTok := s.nextTok + 1 }

/-- Arrival of the joined lookup responses of invocation `tok`: the
`await` continuation stores the combined results and opens/closes the
dropdown unconditionally — the source compares nothing against the most
recently initiated invocation, so whichever response arrives last wins. -/
def responseArrives (store : SearchStore) (tok : Nat) (s : IncState) : IncState :=
  match s.inFlight.find? (fun e => e.1 == tok) with
  | none => s
  | some e =>
    { s with
      results := combinedResults store e.2
      showDropdown := decide (0 < (combinedResults store e.2).length)
      loading := false
      inFlight := s.inFlight.filter (fun x => !(x.1 == tok)) }

/-- Store for the staleness race: course "ab" matches query "ab" only;
course "abc" matches both "ab" and "abc". -/
def raceStore : SearchStore :=
  { courses := [⟨"c1", "AB_101", "ab", "WCAS", []⟩, ⟨"c2", "ABC_101", "abc", "WCAS", []⟩],
    instructors := [] }

/-- C2 counterexample trace: type "ab", let the debounce fire (invocation
0), type "abc", let it fire (invocation 1), then deliver invocation 1's
response followed by invocation 0's stale response.  The stale response
overwrites the newer one: the dropdown ends on the results for "ab"
although "abc" is the most recently initiated invocation. -/
theorem debounce_stale_response_wins :
    (responseArrives raceStore 0
        (responseArrives raceStore 1
          (timerFires (inputEvent "abc"
            (timerFires (inputEvent "ab" initialIncState)))))).results
      = combinedResults raceStore "ab"
    ∧ (responseArrives raceStore 1
        (timerFires (inputEvent "abc"
          (timerFires (inputEvent "ab" initialIncState))))).results
      = combinedResults raceStore "abc"
    ∧ combinedResults raceStore "ab" ≠ combinedResults raceStore "abc" := by
  refine ⟨by decide, by decide, by decide⟩

/-- C2 (amended): what the debounce does guarantee.  (i) Scheduling a new
invocation replaces the single pending timeout, so an invocation whose
timer has not yet fired when the user types again never issues a lookup;
only the most recent pending query can fire.  (ii) Once lookups are
issued there is no staleness guard: delivery of invocation `tok` sets the
results/dropdown state to that invocation's results unconditionally, so
state reflects the most recently *arrived* response (last-response-wins),
not necessarily the most recently initiated invocation. -/
theorem debounce_window_and_last_response :
    (∀ (s : IncState) (v : String), (inputEvent v s).pendingTimer = some v)
    ∧ (∀ (store : SearchStore) (s : IncState) (tok : Nat) (q : String),
        s.inFlight.find? (fun e => e.1 == tok) = some (tok, q) →
        (responseArrives store tok s).results = combinedResults store q) := by
  refine ⟨fun s v => rfl, fun store s tok q h => ?_⟩
  unfold responseArrives
  rw [h]

/-- Witness for `debounce_window_and_last_response`: the delivery clause
applied to the concrete race state with invocation 0 in flight. -/
theorem debounce_window_and_last_response_witness :
    (responseArrives raceStore 0
      (timerFires (inputEvent "ab" initialIncState))).results
      = combinedResults raceStore "ab" :=
  debounce_window_and_last_response.2 raceStore
    (timerFires (inputEvent "ab" initialIncState)) 0 "ab" (by decide)

/-- Characters `encodeURIComponent` leaves unencoded. -/
def uriUnreserved (c : Char) : Bool :=
  c.isAlpha || c.isDigit ||
    c = '-' || c = '_' || c = '.' || c = '!' || c = '~' || c = '*' ||
    c = Char.ofNat 39 || c = '(' || c = ')'

/-- Uppercase hex digit, `n < 16`. -/
def hexDigitChar (n : Nat) : Char :=
  if n < 10 then Char.ofNat ('0'.toNat + n) else Char.ofNat ('A'.toNat + n - 10)

/-- Percent-encoding of one character (ASCII payloads; the multi-byte
UTF-8 encoding of non-ASCII characters is outside this model). -/
def encChar (c : Char) : List Char :=
  if uriUnreserved c then [c]
  else ['%', hexDigitChar (c.toNat / 16), hexDigitChar (c.toNat % 16)]

/-- Model of JS `encodeURIComponent` on ASCII strings. -/
def encodeURIComponent (s : String) : String :=
  ⟨(s.data.map encChar).join⟩

/-- Value of a hex digit character (codepoint arithmetic: 48..57 are the
digits, 65..70 and 97..102 the upper/lower letters). -/
def hexVal (c : Char) : Option Nat :=
  let n := c.toNat
  if 48 ≤ n ∧ n ≤ 57 then some (n - 48)
  else if 65 ≤ n ∧ n ≤ 70 then some (n - 55)
  else if 97 ≤ n ∧ n ≤ 102 then some (n - 87)
  else none

/-- Percent-decoding; `none` models the `URIError` thrown by
`decodeURIComponent` on a malformed or non-ASCII percent sequence. -/
def decodeChars : List Char → Option (List Char)
  | [] => some []
  | c :: rest =>
    if c = '%' then
      match rest with
      | h :: lo :: rest2 =>
        match hexVal h, hexVal lo with
        | some hv, some lv =>
          if 16 * hv + lv < 128 then
            (decodeChars rest2).map (fun r => Char.ofNat (16 * hv + lv) :: r)
          else none
        | _, _ => none
      | _ => none
    else (decodeChars rest).map (fun r => c :: r)

/-- Model of JS `decodeURIComponent`; `none` models a thrown `URIError`. -/
def decodeURIComponent (s : String) : Option String :=
  (decodeChars s.data).map (fun l => ⟨l⟩)

theorem hexVal_hexDigitChar : ∀ n < 16, hexVal (hexDigitChar n) = some n := by
  decide

theorem uriUnreserved_ne_percent (c : Char) (h : uriUnreserved c = true) :
    c ≠ '%' := by
  intro hc
  subst hc
  exact absurd h (by decide)

theorem decodeChars_plain (c : Char) (hc : c ≠ '%') (t : List Char) :
    decodeChars (c :: t) = (decodeChars t).map (fun r => c :: r) := by
  unfold decodeChars
  rw [if_neg hc, ← decodeChars.eq_def]

theorem decodeChars_percent (n : Nat) (hn : n < 128) (t : List Char) :
    decodeChars ('%' :: hexDigitChar (n / 16) :: hexDigitChar (n % 16) :: t) =
      (decodeChars t).map (fun r => Char.ofNat n :: r) := by
  simp only [decodeChars, if_true]
  simp only [hexVal_hexDigitChar _ (show n / 16 < 16 by omega),
    hexVal_hexDigitChar _ (show n % 16 < 16 by omega)]
  rw [show 16 * (n / 16) + n % 16 = n from by omega, if_pos hn]

theorem decodeChars_encChar (l : List Char) (h : ∀ c ∈ l, c.toNat < 128) :
    decodeChars (l.map encChar).join = some l := by
  induction l with
  | nil => rfl
  | cons c rest ih =>
    have hc : c.toNat < 128 := h c (by simp)
    have hrest : ∀ x ∈ rest, x.toNat < 128 := fun x hx => h x (by simp [hx])
    simp only [List.map_cons, List.join_cons]
    by_cases hu : uriUnreserved c = true
    · rw [show encChar c = [c] from by unfold encChar; rw [if_pos hu]]
      simp only [List.cons_append, List.nil_append]
      rw [decodeChars_plain c (uriUnreserved_ne_percent c hu), ih hrest]
      rfl
    · rw [show encChar c =
          ['%', hexDigitChar (c.toNat / 16), hexDigitChar (c.toNat % 16)] from by
        unfold encChar; rw [if_neg hu]]
      simp only [List.cons_append, List.nil_append]
      rw [decodeChars_percent c.toNat hc, ih hrest]
      simp [Char.ofNat_toNat]

/-- Round trip of the percent-coding layer on ASCII strings. -/
theorem decode_encodeURIComponent (s : String) (h : ∀ c ∈ s.data, c.toNat < 128) :
    decodeURIComponent (encodeURIComponent s) = some s := by
  unfold decodeURIComponent encodeURIComponent
  rw [decodeChars_encChar s.data h]
  rfl

/-- JSON rendering of one string (no escapes: the requirement ids of the
system contain neither quotes nor backslashes). -/
def quoteJson (s : String) : List Char :=
  '"' :: s.data ++ ['"']

/-- Comma-separated items and the closing bracket of a JSON array. -/
def encItems : List String → List Char
  | [] => [']']
  | [x] => quoteJson x ++ [']']
  | x :: xs => quoteJson x ++ ',' :: encItems xs

/-- `JSON.stringify` of a string array (escape-free elements). -/
def stringifyStringList (l : List String) : String :=
  match l with
  | [] => "[]"
  | _ => ⟨'[' :: encItems l⟩

/-- Read characters up to the closing quote of a JSON string; `none` on
end of input or an escape (escapes are outside the modeled grammar, which
the serializer never emits). -/
def takeStrChars : List Char → Option (List Char × List Char)
  | [] => none
  | c :: rest =>
    if c = '"' then some ([], rest)
    else if c = '\\' then none
    else (takeStrChars rest).map (fun p => (c :: p.1, p.2))

/-- Parse `"s" ("," "s")* "]"` with nothing after, fuel-bounded (one unit
per item).  `none` models a thrown `SyntaxError` of `JSON.parse`. -/
def parseItems : Nat → List Char → Option (List String)
  | _, [] => none
  | 0, _ => none
  | fuel + 1, c :: rest =>
    if c = '"' then
      match takeStrChars rest with
      | none => none
      | some (s, rest2) =>
        match rest2 with
        | ',' :: rest3 => (parseItems fuel rest3).map (fun l => (⟨s⟩ : String) :: l)
        | [']'] => some [⟨s⟩]
        | _ => none
    else none

/-- `JSON.parse` restricted to arrays of strings: the only JSON values the
serializer produces.  Other well-formed JSON (numbers, objects,
whitespace variations) is outside the modeled grammar; `none` models a
thrown `SyntaxError`. -/
def parseJsonStringList (s : String) : Option (List String) :=
  match s.data with
  | ['[', ']'] => some []
  | '[' :: rest => parseItems rest.length rest
  | _ => none

/-- A string whose characters are legal unescaped JSON string content in
the modeled grammar. -/
def escapeFree (s : String) : Prop :=
  ∀ c ∈ s.data, c ≠ '"' ∧ c ≠ '\\'

instance (s : String) : Decidable (escapeFree s) := by
  unfold escapeFree
  infer_instance

theorem takeStrChars_append (cs : List Char) (rest : List Char)
    (h : ∀ c ∈ cs, c ≠ '"' ∧ c ≠ '\\') :
    takeStrChars (cs ++ '"' :: rest) = some (cs, rest) := by
  induction cs with
  | nil =>
    simp only [List.nil_append]
    unfold takeStrChars
    rw [if_pos rfl]
  | cons c t ih =>
    have hc := h c (by simp)
    have ht : ∀ x ∈ t, x ≠ '"' ∧ x ≠ '\\' := fun x hx => h x (by simp [hx])
    simp only [List.cons_append]
    unfold takeStrChars
    rw [if_neg hc.1, if_neg hc.2, ih ht]
    rfl

theorem parseItems_encItems (l : List String) (hne : l ≠ [])
    (hfree : ∀ s ∈ l, escapeFree s) :
    ∀ fuel, l.length ≤ fuel → parseItems fuel (encItems l) = some l := by
  induction l with
  | nil => exact absurd rfl hne
  | cons x xs ih =>
    intro fuel hfuel
    have hx : escapeFree x := hfree x (by simp)
    have hxs : ∀ s ∈ xs, escapeFree s := fun s hs => hfree s (by simp [hs])
    obtain ⟨f, rfl⟩ : ∃ f, fuel = f + 1 := by
      cases fuel with
      | zero => simp at hfuel
      | succ f => exact ⟨f, rfl⟩
    cases xs with
    | nil =>
      show parseItems (f + 1) (quoteJson x ++ [']']) = some [x]
      unfold quoteJson
      simp only [List.cons_append, List.append_assoc]
      unfold parseItems
      rw [if_pos rfl]
      simp only [List.nil_append]
      rw [takeStrChars_append x.data [']'] hx]
      rfl
    | cons y ys =>
      show parseItems (f + 1) (quoteJson x ++ ',' :: encItems (y :: ys)) = some (x :: y :: ys)
      unfold quoteJson
      simp only [List.cons_append, List.append_assoc]
      unfold parseItems
      rw [if_pos rfl]
      simp only [List.nil_append]
      rw [takeStrChars_append x.data (',' :: encItems (y :: ys)) hx]
      have hys : parseItems f (encItems (y :: ys)) = some (y :: ys) :=
        ih (by simp) hxs f (by simpa using Nat.le_of_succ_le_succ hfuel)
      simp only [hys]
      rfl

theorem length_le_encItems (l : List String) : l.length ≤ (encItems l).length := by
  induction l with
  | nil => simp [encItems]
  | cons x xs ih =>
    cases xs with
    | nil => simp [encItems, quoteJson]
    | cons y ys =>
      have hx : encItems (x :: y :: ys) = quoteJson x ++ ',' :: encItems (y :: ys) := rfl
      rw [hx]
      simp only [List.length_append, List.length_cons, quoteJson, List.length_cons] at *
      omega

/-- Round trip of the modeled JSON layer. -/
theorem parse_stringifyStringList (l : List String) (hfree : ∀ s ∈ l, escapeFree s) :
    parseJsonStringList (stringifyStringList l) = some l := by
  cases l with
  | nil => rfl
  | cons x xs =>
    obtain ⟨t, ht⟩ : ∃ t, encItems (x :: xs) = '"' :: t := by
      cases xs with
      | nil =>
        refine ⟨x.data ++ ['"', ']'], ?_⟩
        show quoteJson x ++ [']'] = _
        unfold quoteJson
        simp
      | cons y ys =>
        refine ⟨x.data ++ '"' :: ',' :: encItems (y :: ys), ?_⟩
        show quoteJson x ++ ',' :: encItems (y :: ys) = _
        unfold quoteJson
        simp
    have hdata : (stringifyStringList (x :: xs)).data = '[' :: encItems (x :: xs) := rfl
    unfold parseJsonStringList
    rw [hdata, ht]
    show parseItems ('"' :: t).length ('"' :: t) = some (x :: xs)
    rw [← ht]
    exact parseItems_encItems (x :: xs) (by simp) hfree _ (length_le_encItems _)

/-- URL query parameters as an ordered key/value list (the serializers
below never create duplicate keys, so `set` is modeled as
replace-or-append). -/
abbrev Params := List (String × String)

/-- `URLSearchParams.set`. -/
def paramsSet (p : Params) (k v : String) : Params :=
  if p.any (fun e => e.1 == k) then
    p.map (fun e => if e.1 = k then (k, v) else e)
  else p ++ [(k, v)]

/-- `URLSearchParams.get`: `none` models `null`. -/
def paramsGet (p : Params) (k : String) : Option String :=
  (p.find? (fun e => e.1 == k)).map (fun e => e.2)

/-- `URLSearchParams.delete`. -/
def paramsDelete (p : Params) (k : String) : Params :=
  p.filter (fun e => !(e.1 == k))

/-- The id/title/code snapshot of a selected course kept by `SearchPage`. -/
structure CourseSnap where
  id : String
  title : String
  code : String
deriving DecidableEq

/-- The id/name snapshot of a selected instructor kept by `SearchPage`. -/
structure InstructorSnap where
  id : String
  name : String
deriving DecidableEq

/-- The `SearchPage` filter selection. -/
structure PageSelection where
  selectedCourses : List CourseSnap
  selectedInstructors : List InstructorSnap
  selectedRequirements : List String
deriving DecidableEq

def emptySelection : PageSelection := ⟨[], [], []⟩

/-- The URL serialization the source can produce for a selection.
`handleResultSelect` (`useSearch.js`) builds a fresh `URLSearchParams`
carrying the query text and exactly ONE chosen entity
(selectedType/selectedId/selectedTitle/selectedCode) — each selection
overwrites the previous one, so the URL never holds more than one entity.
The requirements effect (`SearchPage.jsx`) writes the requirement list as
percent-encoded JSON, deleting the parameter when the list is empty.
Assembled over a selection by carrying its first course (else its first
instructor): the most a URL produced by this code can represent. -/
def serializeSelection (S : PageSelection) : Params :=
  let base : Params :=
    match S.selectedCourses, S.selectedInstructors with
    | c :: _, _ =>
      [("q", ""), ("selectedType", "course"), ("selectedId", c.id),
       ("selectedTitle", c.title), ("selectedCode", c.code)]
    | [], i :: _ =>
      [("q", ""), ("selectedType", "instructor"), ("selectedId", i.id),
       ("selectedTitle", i.name), ("selectedCode", "")]
    | [], [] => []
  if S.selectedRequirements.isEmpty then paramsDelete base "requirements"
  else
    paramsSet base "requirements"
      (encodeURIComponent (stringifyStringList S.selectedRequirements))

/-- JS truthiness of `searchParams.get(k)`: null and "" are falsy. -/
def truthyParam : Option String → Bool
  | none => false
  | some s => !(s == "")

/-- The URL-restore effect of `SearchPage` (lines reading
selectedType/selectedId/selectedTitle/selectedCode and `requirements`):
pre-populates one course or one instructor when the entity params are
truthy, and restores the requirement list from percent-encoded JSON; a
failure of `decodeURIComponent` or `JSON.parse` is caught, logged, and
leaves the selection at its prior value.  Total by construction: it never
throws. -/
def deserializeParams (p : Params) (prior : PageSelection) : PageSelection :=
  let t := paramsGet p "selectedType"
  let i := paramsGet p "selectedId"
  let ttl := paramsGet p "selectedTitle"
  let code := paramsGet p "selectedCode"
  let reqs := paramsGet p "requirements"
  let s1 :=
    if truthyParam t && truthyParam i && truthyParam ttl then
      if t = some "course" then
        { prior with selectedCourses :=
            [⟨i.getD "", ttl.getD "",
              if truthyParam code then code.getD "" else ""⟩] }
      else if t = some "instructor" then
        { prior with selectedInstructors := [⟨i.getD "", ttl.getD ""⟩] }
      else prior
    else prior
  match reqs with
  | none => s1
  | some rstr =>
    if rstr = "" then s1
    else
      match decodeURIComponent rstr with
      | none => s1
      | some json =>
        match parseJsonStringList json with
        | some l => { s1 with selectedRequirements := l }
        | none => s1

/-- A requirement id the URL layer round-trips: ASCII, no JSON escapes. -/
def validReqId (s : String) : Prop :=
  escapeFree s ∧ ∀ c ∈ s.data, c.toNat < 128

instance (s : String) : Decidable (validReqId s) := by
  unfold validReqId
  infer_instance

theorem mem_quoteJson (s : String) (c : Char) (hc : c ∈ quoteJson s) :
    c = '"' ∨ c ∈ s.data := by
  unfold quoteJson at hc
  rcases List.mem_cons.mp hc with rfl | hc
  · exact Or.inl rfl
  · rcases List.mem_append.mp hc with h | h
    · exact Or.inr h
    · exact Or.inl (List.mem_singleton.mp h)

theorem mem_encItems (l : List String) (c : Char) (hc : c ∈ encItems l) :
    c = '"' ∨ c = ']' ∨ c = ',' ∨ ∃ s ∈ l, c ∈ s.data := by
  induction l with
  | nil =>
    simp only [encItems, List.mem_singleton] at hc
    exact Or.inr (Or.inl hc)
  | cons x xs ih =>
    cases xs with
    | nil =>
      rcases List.mem_append.mp hc with h | h
      · rcases mem_quoteJson x c h with h2 | h2
        · exact Or.inl h2
        · exact Or.inr (Or.inr (Or.inr ⟨x, by simp, h2⟩))
      · exact Or.inr (Or.inl (List.mem_singleton.mp h))
    | cons y ys =>
      rcases List.mem_append.mp hc with h | h
      · rcases mem_quoteJson x c h with h2 | h2
        · exact Or.inl h2
        · exact Or.inr (Or.inr (Or.inr ⟨x, by simp, h2⟩))
      · rcases List.mem_cons.mp h with rfl | h2
        · exact Or.inr (Or.inr (Or.inl rfl))
        · rcases ih h2 with h3 | h3 | h3 | ⟨s, hs, h3⟩
          · exact Or.inl h3
          · exact Or.inr (Or.inl h3)
          · exact Or.inr (Or.inr (Or.inl h3))
          · exact Or.inr (Or.inr (Or.inr ⟨s, by simp [hs], h3⟩))

theorem encItems_ascii (l : List String)
    (h : ∀ s ∈ l, ∀ c ∈ s.data, c.toNat < 128) :
    ∀ c ∈ encItems l, c.toNat < 128 := by
  intro c hc
  rcases mem_encItems l c hc with rfl | rfl | rfl | ⟨s, hs, h2⟩
  · decide
  · decide
  · decide
  · exact h s hs c h2

theorem stringify_ascii (l : List String)
    (h : ∀ s ∈ l, ∀ c ∈ s.data, c.toNat < 128) :
    ∀ c ∈ (stringifyStringList l).data, c.toNat < 128 := by
  cases l with
  | nil => decide
  | cons x xs =>
    intro c hc
    have hd : (stringifyStringList (x :: xs)).data = '[' :: encItems (x :: xs) := rfl
    rw [hd] at hc
    rcases List.mem_cons.mp hc with rfl | hc
    · decide
    · exact encItems_ascii (x :: xs) h c hc

theorem encode_stringify_ne_empty (l : List String) :
    encodeURIComponent (stringifyStringList l) ≠ "" := by
  obtain ⟨t, ht⟩ : ∃ t, (stringifyStringList l).data = '[' :: t := by
    cases l with
    | nil => exact ⟨[']'], rfl⟩
    | cons x xs => exact ⟨encItems (x :: xs), rfl⟩
  intro hc
  unfold encodeURIComponent at hc
  have h2 : ((stringifyStringList l).data.map encChar).join = [] := by
    have := congrArg String.data hc
    simpa using this
  rw [ht] at h2
  simp only [List.map_cons, List.join_cons] at h2
  rw [show encChar '[' = ['%', '5', 'B'] from by decide] at h2
  simp at h2

/-- C8 counterexample: a valid selection of two courses does not survive
the URL round trip — the URL can carry only one selected entity, so the
second course is lost. -/
theorem urlSerialization_two_courses_lost :
    deserializeParams
        (serializeSelection ⟨[⟨"c1", "T1", "K1"⟩, ⟨"c2", "T2", "K2"⟩], [], []⟩)
        emptySelection
      = ⟨[⟨"c1", "T1", "K1"⟩], [], []⟩
    ∧ (⟨[⟨"c1", "T1", "K1"⟩], [], []⟩ : PageSelection)
      ≠ ⟨[⟨"c1", "T1", "K1"⟩, ⟨"c2", "T2", "K2"⟩], [], []⟩ := by
  refine ⟨by decide, by decide⟩

/-- C8 (amended): the URL layer round-trips exactly the selections the
source can serialize — one selected course (or one instructor, with a
truthy id and title) plus the requirement list (ids ASCII and
escape-free, order preserved); and deserializing a requirements value
that fails percent-decoding or JSON parsing never throws — the selection
keeps its prior requirement list. -/
theorem urlSerialization_roundtrip :
    (∀ (c : CourseSnap) (reqs : List String),
      c.id ≠ "" → c.title ≠ "" → (∀ r ∈ reqs, validReqId r) →
      deserializeParams (serializeSelection ⟨[c], [], reqs⟩) emptySelection =
        ⟨[c], [], reqs⟩)
    ∧ (∀ (i : InstructorSnap) (reqs : List String),
      i.id ≠ "" → i.name ≠ "" → (∀ r ∈ reqs, validReqId r) →
      deserializeParams (serializeSelection ⟨[], [i], reqs⟩) emptySelection =
        ⟨[], [i], reqs⟩)
    ∧ (∀ (p : Params) (prior : PageSelection) (rstr : String),
        paramsGet p "requirements" = some rstr →
        (decodeURIComponent rstr).bind parseJsonStringList = none →
        (deserializeParams p prior).selectedRequirements =
          prior.selectedRequirements) := by
  refine ⟨?_, ?_, ?_⟩
  · intro c reqs hid httl hreqs
    have hidb : (c.id == "") = false := by
      rw [beq_eq_false_iff_ne]
      exact hid
    have httlb : (c.title == "") = false := by
      rw [beq_eq_false_iff_ne]
      exact httl
    cases reqs with
    | nil =>
      have hser : serializeSelection ⟨[c], [], []⟩ =
          [("q", ""), ("selectedType", "course"), ("selectedId", c.id),
           ("selectedTitle", c.title), ("selectedCode", c.code)] := by
        show paramsDelete
          [("q", ""), ("selectedType", "course"), ("selectedId", c.id),
           ("selectedTitle", c.title), ("selectedCode", c.code)] "requirements" = _
        simp [paramsDelete, List.filter]
      rw [hser]
      by_cases hcode : c.code = ""
      · have hrec : ({ id := c.id, title := c.title, code := "" } : CourseSnap) = c := by
          rw [← hcode]
        simp [deserializeParams, paramsGet, List.find?, truthyParam, hidb, httlb,
          hcode, hrec, emptySelection]
      · have hcodeb : (c.code == "") = false := by
          rw [beq_eq_false_iff_ne]
          exact hcode
        simp [deserializeParams, paramsGet, List.find?, truthyParam, hidb, httlb,
          hcodeb, emptySelection]
    | cons r rs =>
      have hser : serializeSelection ⟨[c], [], r :: rs⟩ =
          [("q", ""), ("selectedType", "course"), ("selectedId", c.id),
           ("selectedTitle", c.title), ("selectedCode", c.code),
           ("requirements", encodeURIComponent (stringifyStringList (r :: rs)))] := by
        show paramsSet
          [("q", ""), ("selectedType", "course"), ("selectedId", c.id),
           ("selectedTitle", c.title), ("selectedCode", c.code)] "requirements" _ = _
        simp [paramsSet, List.any]
      have henc : encodeURIComponent (stringifyStringList (r :: rs)) ≠ "" :=
        encode_stringify_ne_empty (r :: rs)
      have hdec : decodeURIComponent (encodeURIComponent (stringifyStringList (r :: rs))) =
          some (stringifyStringList (r :: rs)) :=
        decode_encodeURIComponent _
          (stringify_ascii (r :: rs) (fun s hs => (hreqs s hs).2))
      have hparse : parseJsonStringList (stringifyStringList (r :: rs)) = some (r :: rs) :=
        parse_stringifyStringList (r :: rs) (fun s hs => (hreqs s hs).1)
      rw [hser]
      by_cases hcode : c.code = ""
      · have hrec : ({ id := c.id, title := c.title, code := "" } : CourseSnap) = c := by
          rw [← hcode]
        simp [deserializeParams, paramsGet, List.find?, truthyParam, hidb, httlb,
          hcode, hrec, henc, hdec, hparse, emptySelection]
      · have hcodeb : (c.code == "") = false := by
          rw [beq_eq_false_iff_ne]
          exact hcode
        simp [deserializeParams, paramsGet, List.find?, truthyParam, hidb, httlb,
          hcodeb, henc, hdec, hparse, emptySelection]
  · intro i reqs hid hname hreqs
    have hidb : (i.id == "") = false := by
      rw [beq_eq_false_iff_ne]
      exact hid
    have hnameb : (i.name == "") = false := by
      rw [beq_eq_false_iff_ne]
      exact hname
    cases reqs with
    | nil =>
      have hser : serializeSelection ⟨[], [i], []⟩ =
          [("q", ""), ("selectedType", "instructor"), ("selectedId", i.id),
           ("selectedTitle", i.name), ("selectedCode", "")] := by
        show paramsDelete
          [("q", ""), ("selectedType", "instructor"), ("selectedId", i.id),
           ("selectedTitle", i.name), ("selectedCode", "")] "requirements" = _
        simp [paramsDelete, List.filter]
      rw [hser]
      simp [deserializeParams, paramsGet, List.find?, truthyParam, hidb, hnameb,
        emptySelection]
    | cons r rs =>
      have hser : serializeSelection ⟨[], [i], r :: rs⟩ =
          [("q", ""), ("selectedType", "instructor"), ("selectedId", i.id),
           ("selectedTitle", i.name), ("selectedCode", ""),
           ("requirements", encodeURIComponent (stringifyStringList (r :: rs)))] := by
        show paramsSet
          [("q", ""), ("selectedType", "instructor"), ("selectedId", i.id),
           ("selectedTitle", i.name), ("selectedCode", "")] "requirements" _ = _
        simp [paramsSet, List.any]
      have henc : encodeURIComponent (stringifyStringList (r :: rs)) ≠ "" :=
        encode_stringify_ne_empty (r :: rs)
      have hdec : decodeURIComponent (encodeURIComponent (stringifyStringList (r :: rs))) =
          some (stringifyStringList (r :: rs)) :=
        decode_encodeURIComponent _
          (stringify_ascii (r :: rs) (fun s hs => (hreqs s hs).2))
      have hparse : parseJsonStringList (stringifyStringList (r :: rs)) = some (r :: rs) :=
        parse_stringifyStringList (r :: rs) (fun s hs => (hreqs s hs).1)
      rw [hser]
      simp [deserializeParams, paramsGet, List.find?, truthyParam, hidb, hnameb,
        henc, hdec, hparse, emptySelection]
  · intro p prior rstr hget hbind
    simp only [deserializeParams, hget]
    by_cases hr : rstr = ""
    · rw [if_pos hr]
      split_ifs <;> rfl
    · rw [if_neg hr]
      cases hdec : decodeURIComponent rstr with
      | none =>
        split_ifs <;> rfl
      | some json =>
        rw [hdec] at hbind
        simp at hbind
        simp only [hbind]
        split_ifs <;> rfl

/-- Witness for `urlSerialization_roundtrip`: the course clause applied at
a concrete single-course selection with two requirement ids. -/
theorem urlSerialization_roundtrip_witness :
    deserializeParams
        (serializeSelection ⟨[⟨"c1", "Intro to CS", "CS_111"⟩], [],
          ["natural_sciences", "wcas"]⟩) emptySelection
      = ⟨[⟨"c1", "Intro to CS", "CS_111"⟩], [], ["natural_sciences", "wcas"]⟩ :=
  urlSerialization_roundtrip.1 ⟨"c1", "Intro to CS", "CS_111"⟩
    ["natural_sciences", "wcas"] (by decide) (by decide) (by decide)

end CTEC
